import Mathlib

/-!
Verification of the runtopo topology-to-deployment pipeline against its
natural-language specification.

The definitions below are a shallow embedding of the Go sources:

* `src/topology/topology.go`, `src/unnamed/part_015..part_018` — topology
  model: device functions, hostname validation, the management-IP allocator
  and the auto-management synthesis;
* `src/unnamed/part_008` — the libvirt runner's `buildInventory` (MAC and
  UDP-tunnel-port assignment, interface sorting);
* `src/unnamed/part_006` — `natCompare` (Dave Koelle's Alphanum ordering);
* `src/unnamed/part_004` — `commandsForFunction` and `gatherHosts`;
* `src/unnamed/part_013` — `createVolumeFromURL`.

Modelling conventions: Go strings are `String`/`List Char` (the repository
compares only ASCII data, where byte order and code-point order agree);
IPv4 addresses and 48-bit MAC addresses are `Nat` (the sources reject or
crash on out-of-range values before arithmetic can wrap, as noted at each
definition); Go maps are association lists, with the unspecified map
iteration order passed in explicitly as a list where the source iterates a
map; Go run-time panics are `Option.none`.
-/

namespace Runtopo

/-- Device roles, from `DeviceFunction` in `src/unnamed/part_015`
(iota order: fake, oob-server, oob-switch, exit, superspine, spine, leaf,
tor, host, unset). -/
inductive DeviceFunction where
  | fake
  | oobServer
  | oobSwitch
  | exit
  | superspine
  | spine
  | leaf
  | tor
  | host
  | noFunction
deriving DecidableEq

/-- `isASCIIDigit` from `src/unnamed/part_006`. -/
def isASCIIDigit (c : Char) : Bool :=
  '0' ≤ c && c ≤ '9'

/-- The `nextChunk` closure inside `natCompare` (`src/unnamed/part_006`):
take the first character, then extend with the following characters of the
same class (digit run or non-digit run). The source indexes `s[0]` and is
only called on non-empty strings; on `[]` we return `[]`. -/
def nextChunk : List Char → List Char
  | [] => []
  | c :: rest =>
    c :: (if isASCIIDigit c then rest.takeWhile isASCIIDigit
          else rest.takeWhile (fun x => !isASCIIDigit x))

/-- Go's `strings.Compare`: lexicographic comparison returning -1/0/+1.
The Go function compares bytes; on the chunk lists handled here the
character-wise comparison yields the same ordering (UTF-8 byte order
agrees with code-point order). -/
def strCmp : List Char → List Char → Int
  | [], [] => 0
  | [], _ :: _ => -1
  | _ :: _, [] => 1
  | a :: as, b :: bs =>
    if a < b then -1 else if b < a then 1 else strCmp as bs

/-- `mustAtoi` on an all-digit chunk: its decimal value. Go's
`strconv.Atoi` parses into a 64-bit int and `mustAtoi` panics on
overflow (digit runs whose value reaches 2^63); theorems about
`natCompare` therefore restrict to inputs whose digit chunks stay below
that bound (`chunksFitInt`), where this unbounded model agrees with Go. -/
def digitsVal (cs : List Char) : Nat :=
  cs.foldl (fun n c => n * 10 + (c.toNat - '0'.toNat)) 0

/-- `natCompare` from `src/unnamed/part_006`, on character lists.
Chunks are peeled off both strings; digit-vs-digit chunks are compared as
integers, and — exactly as in the source — when the integer values are
equal control falls through to `strings.Compare` on the chunk strings.
When either string is exhausted the result is the difference of the
remaining lengths. -/
def natCmpL : List Char → List Char → Int
  | [], t => (0 : Int) - t.length
  | s@(_ :: _), [] => (s.length : Int)
  | c :: s1, d :: t1 =>
    let cs := nextChunk (c :: s1)
    let ct := nextChunk (d :: t1)
    let rest :=
      if strCmp cs ct ≠ 0 then strCmp cs ct
      else natCmpL ((c :: s1).drop cs.length) ((d :: t1).drop ct.length)
    if isASCIIDigit c && isASCIIDigit d then
      let is := digitsVal cs
      let it := digitsVal ct
      if is > it then 1 else if is < it then -1 else rest
    else rest
termination_by s t => s.length + t.length
decreasing_by
  simp only [nextChunk, List.length_drop, List.length_cons]
  omega

/-- `natCompare` from `src/unnamed/part_006`, on `String`. -/
def natCompare (s t : String) : Int :=
  natCmpL s.data t.data

/-- The maximal-chunk decomposition of a string: the alternating digit /
non-digit runs, in order. -/
def toChunks : List Char → List (List Char)
  | [] => []
  | c :: rest =>
    nextChunk (c :: rest) ::
      toChunks ((c :: rest).drop (nextChunk (c :: rest)).length)
termination_by s => s.length
decreasing_by
  simp only [nextChunk, List.length_drop, List.length_cons]
  omega

/-- Chunk comparison as the specification's Alphanum contract words it:
digit-vs-digit chunks compare as unsigned integers, every other pair by
byte order. -/
def chunkCmpSpec (a b : List Char) : Int :=
  if isASCIIDigit (a.headD ' ') && isASCIIDigit (b.headD ' ') then
    if digitsVal a > digitsVal b then 1
    else if digitsVal a < digitsVal b then -1
    else 0
  else strCmp a b

/-- Chunk comparison as the code actually behaves: like `chunkCmpSpec`,
but two digit chunks of equal integer value are tie-broken by byte order
(e.g. `01` sorts before `1`). -/
def chunkCmpAmended (a b : List Char) : Int :=
  if isASCIIDigit (a.headD ' ') && isASCIIDigit (b.headD ' ') then
    if digitsVal a > digitsVal b then 1
    else if digitsVal a < digitsVal b then -1
    else strCmp a b
  else strCmp a b

/-- Chunkwise lexicographic comparison of two chunk decompositions; a
string whose chunks are exhausted first compares smaller. -/
def lexChunks (cmp : List Char → List Char → Int) :
    List (List Char) → List (List Char) → Int
  | [], [] => 0
  | [], _ :: _ => -1
  | _ :: _, [] => 1
  | a :: as, b :: bs => if cmp a b ≠ 0 then cmp a b else lexChunks cmp as bs

/-- The Alphanum contract exactly as the specification states it
(digit chunks as unsigned integers, no tie-break). -/
def alphanumSpecCmp (s t : String) : Int :=
  lexChunks chunkCmpSpec (toChunks s.data) (toChunks t.data)

/-- The amended Alphanum description realized by `natCompare`
(equal-valued digit chunks tie-broken by byte order). -/
def alphanumAmendedCmp (s t : String) : Int :=
  lexChunks chunkCmpAmended (toChunks s.data) (toChunks t.data)

/-- All digit chunks of the string have values representable in Go's
64-bit `int`, so `mustAtoi` does not panic and the unbounded model agrees
with the source. -/
def chunksFitInt (s : String) : Prop :=
  ∀ c ∈ toChunks s.data, digitsVal c < 2 ^ 63

instance (s : String) : Decidable (chunksFitInt s) := by
  unfold chunksFitInt; infer_instance

/-! ## Hostname validation (`src/unnamed/part_016`, `src/topology/topology.go`) -/

/-- `isASCIIAlpha` from `src/unnamed/part_016`. -/
def isASCIIAlpha (c : Char) : Bool :=
  ('A' ≤ c && c ≤ 'Z') || ('a' ≤ c && c ≤ 'z')

/-- `isASCIIAlNum` from `src/unnamed/part_016`. -/
def isASCIIAlNum (c : Char) : Bool :=
  isASCIIAlpha c || ('0' ≤ c && c ≤ '9')

/-- `isASCIIAlNumHyp` from `src/unnamed/part_016`. -/
def isASCIIAlNumHyp (c : Char) : Bool :=
  isASCIIAlNum c || c = '-'

/-- `isValidHostname` from `src/unnamed/part_016`. The middle of the
string is the Go slice `s[1 : len(s)-1]`; for a one-character string whose
character is an ASCII letter the source evaluates `s[1:0]`, which is out
of range and panics at run time, modelled as `none`. (For a one-character
non-letter the function returns before slicing.) Go checks bytes / UTF-8
runes; since only ASCII characters ever pass the class checks, the
character-level model gives the same verdict on every string. -/
def isValidHostname (s : String) : Option Bool :=
  match s.data with
  | [] => some false
  | c :: rest =>
    if !isASCIIAlpha c then some false
    else if h : rest = [] then none
    else some (rest.dropLast.all isASCIIAlNumHyp && isASCIIAlNum (rest.getLast h))

/-- The specification's hostname pattern `[A-Za-z][A-Za-z0-9-]*[A-Za-z0-9]`:
a leading ASCII letter, a trailing ASCII letter or digit, and only
letters, digits or hyphens in between (so at least two characters). -/
def hostnamePat (s : String) : Bool :=
  match s.data with
  | [] => false
  | [_] => false
  | c :: d :: rest =>
    isASCIIAlpha c && (d :: rest).dropLast.all isASCIIAlNumHyp &&
      isASCIIAlNum ((d :: rest).getLast (by simp))

/-- The hostname-validation loop of `Parse` (`src/topology/topology.go`):
the first device whose name fails `isValidHostname` aborts parsing with an
`invalid hostname` error; a panic inside the validator (`none`) crashes
`Parse` itself. -/
def checkHostnames : List String → Option (Except String Unit)
  | [] => some (Except.ok ())
  | n :: rest =>
    match isValidHostname n with
    | none => none
    | some false => some (Except.error ("invalid hostname: " ++ n))
    | some true => checkHostnames rest

/-! ## The IP allocator (`src/unnamed/part_016`) -/

/-- An IP prefix `addr/bits`, as produced by `netaddr.ParseIPPrefix`.
Addresses are IPv4 addresses as natural numbers below `2^32`;
`bits ≤ 32`. -/
structure IPPfx where
  addr : Nat
  bits : Nat
deriving DecidableEq

/-- `p.Masked().IP` — the network address of the prefix. -/
def IPPfx.network (p : IPPfx) : Nat :=
  p.addr - p.addr % 2 ^ (32 - p.bits)

/-- `p.Range().To` — the broadcast (highest) address of the prefix. -/
def IPPfx.broadcast (p : IPPfx) : Nat :=
  p.network + (2 ^ (32 - p.bits) - 1)

/-- The `ipAllocator` state: the set of assignable addresses, kept as a
sorted list (the `netaddr.IPSetBuilder` it models is a set; `Ranges()`
enumerates it in increasing order). -/
structure IpAlloc where
  addrs : List Nat
deriving DecidableEq

/-- `newIPAllocator` from `src/unnamed/part_016`: add the whole prefix,
then remove the network and broadcast addresses. -/
def newIPAllocator (p : IPPfx) : IpAlloc :=
  ⟨((List.range' p.network (2 ^ (32 - p.bits))).erase p.network).erase p.broadcast⟩

/-- `reserve` from `src/unnamed/part_016`: if `ip` is not in the set
return `false` and leave the set unchanged, else remove it and return
`true`. -/
def IpAlloc.reserve (a : IpAlloc) (ip : Nat) : IpAlloc × Bool :=
  if ip ∈ a.addrs then (⟨a.addrs.erase ip⟩, true) else (a, false)

/-- `allocate` from `src/unnamed/part_016`: remove and return the first
address of the first range of the set (its smallest element), or fail
when the set is exhausted. -/
def IpAlloc.allocate (a : IpAlloc) : Option (Nat × IpAlloc) :=
  match a.addrs with
  | [] => none
  | ip :: rest => some (ip, ⟨rest⟩)

/-- Repeatedly `allocate`, recording each outcome (used to state the
specification's /29 exhaustion scenarios). -/
def IpAlloc.allocSeq (a : IpAlloc) : Nat → List (Option Nat)
  | 0 => []
  | n + 1 =>
    match a.allocate with
    | none => none :: IpAlloc.allocSeq a n
    | some (ip, a1) => some ip :: a1.allocSeq n

/-! ## Auto-management synthesis (`setupAutoMgmtNetwork`,
`src/topology/topology.go` lines 139-238)

Only the management-IP bookkeeping is modelled (the synthesized
`oob-mgmt-switch:swpN — d:eth0` links do not influence IP assignment).
The source iterates the Go map `t.devs` — whose order is unspecified and
randomized — in both the reservation and the allocation phase; the model
takes that enumeration explicitly as a list of device names (`order`),
used for both phases of one invocation. -/

/-- A topology device as `setupAutoMgmtNetwork` sees it. The single DOT
attribute `mgmt_ip` is parsed as a prefix on `oob-mgmt-server` and as a
bare address elsewhere; the two pre-parsed fields model those two reads
of the same attribute. -/
structure MDev where
  name : String
  fn : DeviceFunction
  noMgmt : Bool := false
  mgmtIpAttr : Option Nat := none
  mgmtIpPfxAttr : Option IPPfx := none
  mgmtIP : Option Nat := none
deriving DecidableEq

/-- Look up a device by name in the device map. -/
def findMDev (devs : List MDev) (n : String) : Option MDev :=
  devs.find? (fun d => d.name = n)

/-- Update the device map entry named `n`. -/
def updateMDev (devs : List MDev) (n : String) (f : MDev → MDev) : List MDev :=
  devs.map (fun d => if d.name = n then f d else d)

/-- `HasFunction(d, OOBSwitch, OOBServer, Fake)` — the skip condition of
both loops in `setupAutoMgmtNetwork`. -/
def isOOBOrFake (d : MDev) : Bool :=
  d.fn = DeviceFunction.oobSwitch || d.fn = DeviceFunction.oobServer ||
    d.fn = DeviceFunction.fake

/-- The reservation loop: for every device (in map-enumeration order)
that is not OOB/fake, has an explicit `mgmt_ip` and is not `no_mgmt`,
reserve that address (failing if it is outside the prefix or taken) and
record it as the device's management IP. -/
def reservePhase (devs : List MDev) (a : IpAlloc) :
    List String → Except String (List MDev × IpAlloc)
  | [] => Except.ok (devs, a)
  | n :: rest =>
    match findMDev devs n with
    | none => reservePhase devs a rest
    | some d =>
      if isOOBOrFake d then reservePhase devs a rest
      else
        match d.mgmtIpAttr with
        | none => reservePhase devs a rest
        | some ip =>
          if d.noMgmt then reservePhase devs a rest
          else
            match a.reserve ip with
            | (_, false) => Except.error ("device " ++ n ++ ": unable to reserve ip")
            | (a1, true) =>
              reservePhase (updateMDev devs n (fun d0 => { d0 with mgmtIP := some ip }))
                a1 rest

/-- The allocation loop: for every device (in map-enumeration order) that
is not `no_mgmt` and not OOB/fake, allocate the next free management
address unless one was reserved for it already. -/
def allocPhase (devs : List MDev) (a : IpAlloc) :
    List String → Except String (List MDev × IpAlloc)
  | [] => Except.ok (devs, a)
  | n :: rest =>
    match findMDev devs n with
    | none => allocPhase devs a rest
    | some d =>
      if d.noMgmt then allocPhase devs a rest
      else if isOOBOrFake d then allocPhase devs a rest
      else if d.mgmtIP.isSome then allocPhase devs a rest
      else
        match a.allocate with
        | none => Except.error ("device " ++ n ++ ": mgmt ip range exhausted")
        | some (ip, a1) =>
          allocPhase (updateMDev devs n (fun d0 => { d0 with mgmtIP := some ip })) a1 rest

/-- The default `oob-mgmt-server` synthesized when the topology does not
define one: `mgmt_ip 192.168.200.254/24`. -/
def defaultMgmtServer : MDev :=
  { name := "oob-mgmt-server", fn := DeviceFunction.oobServer,
    mgmtIpPfxAttr := some ⟨3232286974, 24⟩ }

/-- The default `oob-mgmt-switch` synthesized when missing. -/
def defaultMgmtSwitch : MDev :=
  { name := "oob-mgmt-switch", fn := DeviceFunction.oobSwitch }

/-- `setupAutoMgmtNetwork`: synthesize the OOB devices if missing, build
the allocator from the server's `mgmt_ip` prefix, reserve the server's
own address, then run the reservation and allocation loops over the
device map in the given enumeration order. -/
def setupAutoMgmtNetwork (devs : List MDev) (order : List String) :
    Except String (List MDev) := do
  let devs := if (findMDev devs "oob-mgmt-server").isSome then devs
              else devs ++ [defaultMgmtServer]
  let devs := if (findMDev devs "oob-mgmt-switch").isSome then devs
              else devs ++ [defaultMgmtSwitch]
  match (findMDev devs "oob-mgmt-server").bind (fun d => d.mgmtIpPfxAttr) with
  | none => Except.error "parse mgmt_ip"
  | some p =>
    let a := newIPAllocator p
    let a := (a.reserve p.addr).1
    let (devs, a) ← reservePhase devs a order
    let (devs, _) ← allocPhase devs a order
    Except.ok devs

/-- The management IP assigned to device `n`. -/
def mgmtIPOf (res : Except String (List MDev)) (n : String) : Option Nat :=
  match res with
  | Except.error _ => none
  | Except.ok devs => (findMDev devs n).bind (fun d => d.mgmtIP)

/-! ## The inventory builder (`buildInventory`, `src/unnamed/part_008`)

MAC addresses are 48-bit integers (`macAddrFromUint64` panics above
`2^48`, so the unbounded counter agrees with the source as long as
`macBase` plus the number of allocations stays below `2^48`; theorems
carry that bound). Tunnel IPs are IPv4 addresses as naturals, already
parsed (`net.ParseIP` failures abort `buildInventory` before the link
walk). Loading of `config` blobs and BMC registration in the device loop
do not influence interfaces, MACs or ports and are not modelled. -/

/-- A topology link as `buildInventory` consumes it. `leftMac`/`rightMac`
model the `FromMAC`/`ToMAC` accessors of `src/topology/link.go`: the
parsed `left_mac`/`right_mac` edge attribute, `none` when the attribute
is absent (or fails `net.ParseMAC`, in which case the source also falls
back to the allocator). `leftPxe`/`rightPxe` model
`Attr("left_pxe") != ""`. -/
structure TopoLink where
  linkFrom : String
  linkFromPort : String
  linkTo : String
  linkToPort : String
  leftMac : Option Nat := none
  rightMac : Option Nat := none
  leftPxe : Bool := false
  rightPxe : Bool := false
deriving DecidableEq

/-- A topology device as `buildInventory` consumes it: name, function,
the parsed `tunnelip` attribute, and the management IP assigned by
auto-management (read later by `gatherHosts` through `MgmtIP()`). -/
structure TopoDev where
  name : String
  fn : DeviceFunction
  tunnelip : Option Nat := none
  mgmtIP : Option Nat := none
deriving DecidableEq

/-- An inventory interface (`iface`, `src/unnamed/part_008`): either a
named libvirt `network`, or a UDP tunnel sending to
`remoteTunnelIP:port` and bound locally to `localPort`. -/
structure Iface where
  name : String
  mac : Nat
  network : String := ""
  port : Nat := 0
  localPort : Nat := 0
  remoteTunnelIP : Nat := 0
  pxe : Bool := false
deriving DecidableEq

/-- An inventory device (`device`, `src/unnamed/part_008`). `name` holds
the topology name — the key of the `r.devices` map; the hypervisor-scoped
`namePrefix + name` is not needed by any claim. `fn` and `mgmtIP` carry
the embedded `topoDev` fields read by `customizeDomains`/`gatherHosts`. -/
structure Dev where
  name : String
  fn : DeviceFunction
  tunnelIP : Nat
  mgmtIP : Option Nat
  interfaces : List Iface
deriving DecidableEq

/-- Runner configuration: the fields of `Runner` that `buildInventory`
reads (defaults: tunnel IP 127.0.0.1, portBase 10000, portGap 1000). -/
structure RunnerCfg where
  tunnelIP : Nat
  macBase : Nat
  portBase : Nat
  portGap : Nat
deriving DecidableEq

/-- `r.devices[n]` — map lookup by topology name. -/
def findDev (devs : List Dev) (n : String) : Option Dev :=
  devs.find? (fun d => d.name = n)

/-- Append an interface to the device named `n` (the source appends
through the map's pointer to that device). -/
def appendIface (devs : List Dev) (n : String) (i : Iface) : List Dev :=
  devs.map (fun d => if d.name = n then { d with interfaces := d.interfaces ++ [i] } else d)

/-- The device loop of `buildInventory`: every non-fake topology device
becomes an inventory device, with `tunnelip` overriding the runner-wide
tunnel IP. -/
def mkDevices (cfg : RunnerCfg) (tds : List TopoDev) : List Dev :=
  (tds.filter (fun d => d.fn ≠ DeviceFunction.fake)).map
    (fun d => { name := d.name, fn := d.fn,
                tunnelIP := d.tunnelip.getD cfg.tunnelIP,
                mgmtIP := d.mgmtIP, interfaces := [] })

/-- The link-walk state: the device map plus the MAC counter and the
tunnel-port counter. -/
structure InvState where
  devs : List Dev
  macInt : Nat
  nextPort : Nat
deriving DecidableEq

/-- The MAC an endpoint receives (`allocateMAC`): the explicit
`left_mac`/`right_mac` when present, else the current counter value. -/
def macOf (macInt : Nat) : Option Nat → Nat
  | some m => m
  | none => macInt

/-- The MAC counter after the endpoint: advanced exactly when the
allocator was used. -/
def macNext (macInt : Nat) : Option Nat → Nat
  | some _ => macInt
  | none => macInt + 1

/-- The half-open management-uplink condition inside the link walk. -/
def halfOpenOOB (l : TopoLink) : Bool :=
  (l.linkFrom = "oob-mgmt-server" || l.linkFrom = "oob-mgmt-switch") && l.linkTo = ""

/-- The `to`-side of the link walk's body: if the `to` endpoint is a
known device, allocate its MAC and append the tunnel interface bound to
`nextPort` and sending to `nextPort + portGap` at `fromTunnelIP`. -/
def toSide (cfg : RunnerCfg) (st : InvState) (fromTunnelIP : Nat) (l : TopoLink) :
    InvState :=
  match findDev st.devs l.linkTo with
  | none => st
  | some _ =>
    { st with
      devs := appendIface st.devs l.linkTo
        { name := l.linkToPort, mac := macOf st.macInt l.rightMac,
          port := st.nextPort + cfg.portGap, localPort := st.nextPort,
          remoteTunnelIP := fromTunnelIP, pxe := l.rightPxe },
      macInt := macNext st.macInt l.rightMac }

/-- One iteration of the `t.Links()` loop in `buildInventory`.
If the `from` endpoint is known: allocate its MAC; a half-open link from
an OOB device appends a single `network = "default"` interface and skips
the rest of the body (`continue` — in particular `nextPort` does not
advance); otherwise the `from` side gets the tunnel interface sending to
`nextPort` and bound to `nextPort + portGap`, the `to` side is processed,
and `nextPort` advances by one. -/
def linkStep (cfg : RunnerCfg) (st : InvState) (l : TopoLink) : InvState :=
  match findDev st.devs l.linkFrom with
  | none =>
    let st1 := toSide cfg st cfg.tunnelIP l
    { st1 with nextPort := st1.nextPort + 1 }
  | some fromDev =>
    if halfOpenOOB l then
      { st with
        devs := appendIface st.devs l.linkFrom
          { name := l.linkFromPort, mac := macOf st.macInt l.leftMac,
            network := "default" },
        macInt := macNext st.macInt l.leftMac }
    else
      let st1 : InvState :=
        { st with
          devs := appendIface st.devs l.linkFrom
            { name := l.linkFromPort, mac := macOf st.macInt l.leftMac,
              port := st.nextPort, localPort := st.nextPort + cfg.portGap,
              remoteTunnelIP :=
                ((findDev st.devs l.linkTo).map Dev.tunnelIP).getD cfg.tunnelIP,
              pxe := l.leftPxe },
          macInt := macNext st.macInt l.leftMac }
      let st2 := toSide cfg st1 fromDev.tunnelIP l
      { st2 with nextPort := st2.nextPort + 1 }

/-- The link walk: fold `linkStep` over `t.Links()` starting from the
fresh device map, the 48-bit integer of `macBase`, and `portBase`. -/
def runLinks (cfg : RunnerCfg) (tds : List TopoDev) (links : List TopoLink) : InvState :=
  links.foldl (linkStep cfg) ⟨mkDevices cfg tds, cfg.macBase, cfg.portBase⟩

/-- The interface comparator passed to `sort.Slice` at the end of
`buildInventory`: `eth0` is less than everything else, the rest compare
by `natCompare`. -/
def ifaceLess (di dj : Iface) : Bool :=
  (di.name = "eth0" && dj.name ≠ "eth0") || natCompare di.name dj.name < 0

/-- One step of Go's insertion sort (`sort.insertionSort`), acting on the
already-sorted prefix kept in *reversed* order: the new element sinks
left past every element `y` with `less x y`, exactly like the inner
`for j > a && data.Less(j, j-1)` swap loop. -/
def sinkIns (less : α → α → Bool) (x : α) : List α → List α
  | [] => [x]
  | y :: r => if less x y then y :: sinkIns less x r else x :: y :: r

/-- Go's `sort.Slice` as `buildInventory` invokes it. The standard
library routine is an external component; its contract returns a
permutation sorted by `less`. The model is Go's own insertion sort
(`sort.insertionSort`, the code path taken for the small slices in every
scenario below), written as a left fold over the input with the sorted
prefix kept reversed: it performs exactly the source's comparisons and
swaps, and in particular agrees with the Go implementation on every
two-element slice even when `less` is not a valid ordering. -/
def goSortSlice (less : α → α → Bool) (l : List α) : List α :=
  (l.foldl (fun acc x => sinkIns less x acc) []).reverse

/-- `buildInventory` (`src/unnamed/part_008`): build the device map, walk
the links, then sort every device's interfaces with `ifaceLess`. -/
def buildInventory (cfg : RunnerCfg) (tds : List TopoDev) (links : List TopoLink) :
    List Dev :=
  (runLinks cfg tds links).devs.map
    (fun d => { d with interfaces := goSortSlice ifaceLess d.interfaces })

/-! ## `gatherHosts` (`src/unnamed/part_004`) -/

/-- A `dnsmasq`/hosts entry: device name, management IP, `eth0` MAC. -/
structure EtherHost where
  name : String
  ip : Nat
  mac : Nat
deriving DecidableEq

/-- `gatherHosts`: walk the inventory devices; skip the two OOB
management devices by name; index `d.interfaces[0]` — a device with no
interfaces makes that access panic (`none`); skip devices whose first
interface is not `eth0` or that have no management IP; collect the rest.
The source iterates the `r.devices` map, so the list order stands in for
one enumeration order (the panic happens under every order). -/
def gatherHosts : List Dev → Option (List EtherHost)
  | [] => some []
  | d :: rest =>
    if d.name = "oob-mgmt-server" || d.name = "oob-mgmt-switch" then
      gatherHosts rest
    else
      match d.interfaces with
      | [] => none
      | eth0 :: _ =>
        if eth0.name ≠ "eth0" then gatherHosts rest
        else
          match d.mgmtIP with
          | none => gatherHosts rest
          | some ip =>
            (gatherHosts rest).map (fun hs => ⟨d.name, ip, eth0.mac⟩ :: hs)

/-- The condition under which `customizeDomains`
(`src/unnamed/part_008`) calls `gatherHosts`: some inventory device has
function `oob-server`. -/
def customizeCallsGatherHosts (devs : List Dev) : Bool :=
  devs.any (fun d => d.fn = DeviceFunction.oobServer)

/-! ## `commandsForFunction` (`src/unnamed/part_004`)

The function-specific guest-customization command stream, modelled as the
list of strings written to the buffer, in order. The random bcrypt hash
produced for the `cumulus` password is passed in as `cryptPW`; the
server's already-validated `mgmt_ip` prefix (read through
`netaddr.MustParseIPPrefix`) is passed in as `mgmtPfx`. -/

/-- Dotted-quad rendering of an IPv4 address (how `netaddr.IP` prints). -/
def showIPv4 (a : Nat) : String :=
  toString (a / 2 ^ 24 % 256) ++ "." ++ toString (a / 2 ^ 16 % 256) ++ "." ++
    toString (a / 2 ^ 8 % 256) ++ "." ++ toString (a % 256)

/-- `strings.Replace(s, "\n", "\\\n", -1)` — the virt-customize line
continuation escaping. -/
def escapeNl (s : String) : String :=
  ⟨s.data.foldr (fun c acc => if c = '\n' then '\\' :: '\n' :: acc else c :: acc) []⟩

/-- `hasCumulusFunction` (`src/unnamed/part_006`): the functions that
default to Cumulus Linux. -/
def hasCumulusFunction (d : Dev) : Bool :=
  d.fn = DeviceFunction.oobSwitch || d.fn = DeviceFunction.exit ||
    d.fn = DeviceFunction.superspine || d.fn = DeviceFunction.spine ||
    d.fn = DeviceFunction.leaf || d.fn = DeviceFunction.tor

/-- `writeExtraMgmtSwitchCommands`: bridge every non-`eth0` interface. -/
def writeExtraMgmtSwitchCommands (d : Dev) : List String :=
  let bridgePorts := (d.interfaces.filter (fun i => i.name ≠ "eth0")).map Iface.name
  let bridgeConf := "auto bridge\niface bridge\n    bridge-ports " ++
    String.intercalate " " bridgePorts ++ "\n"
  ["write /etc/network/interfaces.d/bridge.intf:" ++ escapeNl bridgeConf ++ "\n"]

/-- The `nftablesRuleset` constant. -/
def nftablesRuleset : String :=
  "\ntable ip nat \x7b\n\tchain postrouting \x7b\n\t\ttype nat hook postrouting priority srcnat; policy accept;\n\t\tmasquerade\n\t\x7d\n\x7d\n"

/-- The `dnsmasqConf` constant with its `%s` substituted. -/
def dnsmasqConf (maskedIP : String) : String :=
  "\nstrict-order\ninterface=eth1\ndhcp-range=" ++ maskedIP ++
    ",static\ndhcp-no-override\ndhcp-authoritative\ndhcp-hostsfile=/etc/dnsmasq.hostsfile\n"

/-- The `ifcfgEth1` constant with `%s`/`%d` substituted. -/
def ifcfgEth1 (ip : String) (bits : Nat) : String :=
  "\nTYPE=Ethernet\nDEVICE=eth1\nONBOOT=yes\nBOOTPROTO=none\nIPADDR=" ++ ip ++
    "\nPREFIX=" ++ toString bits ++ "\n"

/-- `writeExtraMgmtServerCommands`: NAT, dnsmasq and resolver setup for
the management server. -/
def writeExtraMgmtServerCommands (mgmtPfx : IPPfx) : List String :=
  [ "install nftables,dnsmasq\n",
    "write /etc/sysconfig/network-scripts/ifcfg-eth0:TYPE=Ethernet\\\nDEVICE=eth0\\\nPEERDNS=yes\\\nBOOTPROTO=dhcp\\\nONBOOT=yes\n",
    "write /etc/sysconfig/network-scripts/ifcfg-eth1:" ++
      escapeNl (ifcfgEth1 (showIPv4 mgmtPfx.addr) mgmtPfx.bits) ++ "\n",
    "write /etc/sysconfig/nftables.conf:" ++ escapeNl nftablesRuleset ++ "\n",
    "run-command systemctl enable nftables.service\n",
    "write /etc/sysctl.d/98-ipfwd.conf:net.ipv4.ip_forward=1\n",
    "write /etc/dnsmasq.conf:" ++ escapeNl (dnsmasqConf (showIPv4 mgmtPfx.network)) ++ "\n",
    "run-command systemctl disable systemd-resolved.service\n",
    "delete /etc/resolv.conf\n",
    "write /etc/resolv.conf:#placeholder\n",
    "run-command systemctl enable dnsmasq.service\n" ]

/-- `commandsForFunction` (`src/unnamed/part_004` lines 71-122): the
Cumulus branch disables netq, password expiry and forced password change,
writes the hostname (plus the bridge config on `oob-switch`) and
*returns* — without `selinux-relabel`. The non-Cumulus branch disables
cloud-init, sets up lldpd (plus the management-server extras on
`oob-server`) and terminates with `selinux-relabel`. -/
def commandsForFunction (d : Dev) (mgmtPfx : IPPfx) (cryptPW : String) : List String :=
  if hasCumulusFunction d then
    [ "run-command systemctl disable netq-agent.service\n",
      "run-command systemctl disable netqd@mgmt.service\n",
      "run-command passwd -x 99999 cumulus\n",
      "write /etc/sudoers.d/no-passwd:%sudo     ALL=(ALL:ALL) NOPASSWD: ALL\n",
      "run-command usermod -p " ++ cryptPW ++ " cumulus\n",
      "write /etc/hostname:" ++ d.name ++ "\\\n\n" ] ++
    (if d.fn = DeviceFunction.oobSwitch then writeExtraMgmtSwitchCommands d else [])
  else
    [ "run-command systemctl disable cloud-init.service\n",
      "run-command systemctl disable cloud-init-local.service\n",
      "run-command systemctl disable cloud-config.service\n",
      "run-command systemctl disable cloud-final.service\n",
      "install lldpd\n",
      "run-command systemctl enable lldpd.service\n",
      "write /etc/lldpd.d/ifname.conf:configure lldp portidsubtype ifname\\\n\n" ] ++
    (if d.fn = DeviceFunction.oobServer then writeExtraMgmtServerCommands mgmtPfx else []) ++
    [ "selinux-relabel\n" ]

/-! ## `createVolumeFromURL` (`src/unnamed/part_013`)

One image-fetch worker, modelled as a pure function of which external
step fails, returning the propagated outcome together with the trace of
effects it performed against libvirt (`vol.Free` releases the client-side
object handle; only `vol.Delete` would remove the volume from the storage
pool). -/

/-- The observable libvirt/HTTP effects of a fetch worker. -/
inductive VolEff where
  | httpHead
  | volCreate
  | volFree
  | volDelete
  | streamNew
  | streamAbort
  | streamFinish
  | httpGet
deriving DecidableEq

/-- Which of the worker's fallible steps succeed. -/
structure FetchEnv where
  headOK : Bool := true
  createOK : Bool := true
  streamNewOK : Bool := true
  uploadOK : Bool := true
  getOK : Bool := true
  finishOK : Bool := true
deriving DecidableEq

/-- `createVolumeFromURL`: HEAD for the length, create the volume, open
an upload stream, GET and copy, finish. Every error path frees the volume
handle (and aborts the stream where one is open) and propagates the
error; no path deletes the created volume. -/
def createVolumeFromURL (env : FetchEnv) : Except String Unit × List VolEff :=
  if !env.headOK then
    (Except.error "fetch-length", [VolEff.httpHead])
  else if !env.createOK then
    (Except.error "vol-create", [VolEff.httpHead])
  else if !env.streamNewOK then
    (Except.error "new-stream", [VolEff.httpHead, VolEff.volCreate, VolEff.volFree])
  else if !env.uploadOK then
    (Except.error "vol-upload",
      [VolEff.httpHead, VolEff.volCreate, VolEff.streamNew, VolEff.volFree,
        VolEff.streamAbort])
  else if !env.getOK then
    (Except.error "fetch",
      [VolEff.httpHead, VolEff.volCreate, VolEff.streamNew, VolEff.httpGet,
        VolEff.volFree, VolEff.streamAbort])
  else if !env.finishOK then
    (Except.error "stream-finish",
      [VolEff.httpHead, VolEff.volCreate, VolEff.streamNew, VolEff.httpGet,
        VolEff.volFree])
  else
    (Except.ok (),
      [VolEff.httpHead, VolEff.volCreate, VolEff.streamNew, VolEff.httpGet,
        VolEff.streamFinish])

/-- A partially created volume stays in the storage pool: it was created
and never deleted. -/
def volRemainsInPool (tr : List VolEff) : Bool :=
  tr.contains VolEff.volCreate && !tr.contains VolEff.volDelete

/-! ## Statement-support definitions -/

/-- The `less` closure the natural-sort test passes to `sort.Slice`:
`natCompare(a[i], a[j]) < 0`. -/
def natLess (a b : String) : Bool :=
  decide (natCompare a b < 0)

/-- Adjacent strict increase under `natCompare`. -/
def natChainB : List String → Bool
  | [] => true
  | [_] => true
  | a :: b :: r => decide (natCompare a b < 0) && natChainB (b :: r)

/-- The interface names of an inventory device, in order. -/
def ifaceNamesOf (d : Dev) : List String :=
  d.interfaces.map Iface.name

/-- The interface-ordering property claimed by the specification: `eth0`
(when present) sits at position 0, and the remaining names are strictly
increasing under the Alphanum comparison. -/
def eth0FirstNatSorted (names : List String) : Bool :=
  if names.contains "eth0" then
    decide (names.head? = some "eth0") && natChainB names.tail
  else natChainB names

/-- Whether the link walk knows a device of this name (presence in the
inventory map, which never changes during the walk). -/
def devKnown (cfg : RunnerCfg) (tds : List TopoDev) (n : String) : Bool :=
  (findDev (mkDevices cfg tds) n).isSome

/-- How many MAC addresses one link draws from the allocator: one for
each endpoint that lands on an inventory device and has no explicit MAC —
except that a half-open OOB link skips its (absent) `to` side. -/
def linkAutoCount (cfg : RunnerCfg) (tds : List TopoDev) (l : TopoLink) : Nat :=
  (if devKnown cfg tds l.linkFrom && l.leftMac.isNone then 1 else 0) +
    (if devKnown cfg tds l.linkFrom && halfOpenOOB l then 0
     else if devKnown cfg tds l.linkTo && l.rightMac.isNone then 1 else 0)

/-- Dave Koelle's simple `z<N>.doc` test vector (`natSortTests[0].input`,
`src/runner/libvirt/helper_test.go`). -/
def koelleInput1 : List String :=
  ["z102.doc", "z12.doc", "z5.doc", "z9.doc", "z16.doc", "z10.doc",
   "z15.doc", "z4.doc", "z17.doc", "z3.doc", "z100.doc", "z8.doc",
   "z14.doc", "z1.doc", "z19.doc", "z11.doc", "z6.doc", "z20.doc",
   "z18.doc", "z2.doc", "z101.doc", "z7.doc", "z13.doc"]

/-- Golden order of the simple vector (`natSortTests[0].golden`). -/
def koelleGolden1 : List String :=
  ["z1.doc", "z2.doc", "z3.doc", "z4.doc", "z5.doc", "z6.doc", "z7.doc",
   "z8.doc", "z9.doc", "z10.doc", "z11.doc", "z12.doc", "z13.doc",
   "z14.doc", "z15.doc", "z16.doc", "z17.doc", "z18.doc", "z19.doc",
   "z20.doc", "z100.doc", "z101.doc", "z102.doc"]

/-- The full 34-item Koelle fixture (`natSortTests[1].input`). -/
def koelleInput2 : List String :=
  ["1000X Radonius Maximus", "10X Radonius", "200X Radonius", "20X Radonius",
   "20X Radonius Prime", "30X Radonius", "40X Radonius",
   "Allegia 50 Clasteron", "Allegia 500 Clasteron", "Allegia 50B Clasteron",
   "Allegia 51 Clasteron", "Allegia 6R Clasteron", "Alpha 100", "Alpha 2",
   "Alpha 200", "Alpha 2A", "Alpha 2A-8000", "Alpha 2A-900",
   "Callisto Morphamax", "Callisto Morphamax 500", "Callisto Morphamax 5000",
   "Callisto Morphamax 600", "Callisto Morphamax 6000 SE",
   "Callisto Morphamax 6000 SE2", "Callisto Morphamax 700",
   "Callisto Morphamax 7000", "Xiph Xlater 10000", "Xiph Xlater 2000",
   "Xiph Xlater 300", "Xiph Xlater 40", "Xiph Xlater 5", "Xiph Xlater 50",
   "Xiph Xlater 500", "Xiph Xlater 5000", "Xiph Xlater 58"]

/-- Golden order of the full fixture (`natSortTests[1].golden`). -/
def koelleGolden2 : List String :=
  ["10X Radonius", "20X Radonius", "20X Radonius Prime", "30X Radonius",
   "40X Radonius", "200X Radonius", "1000X Radonius Maximus",
   "Allegia 6R Clasteron", "Allegia 50 Clasteron", "Allegia 50B Clasteron",
   "Allegia 51 Clasteron", "Allegia 500 Clasteron", "Alpha 2", "Alpha 2A",
   "Alpha 2A-900", "Alpha 2A-8000", "Alpha 100", "Alpha 200",
   "Callisto Morphamax", "Callisto Morphamax 500", "Callisto Morphamax 600",
   "Callisto Morphamax 700", "Callisto Morphamax 5000",
   "Callisto Morphamax 6000 SE", "Callisto Morphamax 6000 SE2",
   "Callisto Morphamax 7000", "Xiph Xlater 5", "Xiph Xlater 40",
   "Xiph Xlater 50", "Xiph Xlater 58", "Xiph Xlater 300", "Xiph Xlater 500",
   "Xiph Xlater 2000", "Xiph Xlater 5000", "Xiph Xlater 10000"]

/-! ### Concrete instances used by counterexamples and witnesses -/

/-- The default runner configuration (`NewRunner`): tunnel IP 127.0.0.1,
MAC base `44:38:39:00:00:00`, port base 10000, port gap 1000. -/
def defaultCfg : RunnerCfg :=
  { tunnelIP := 2130706433, macBase := 75008265158656,
    portBase := 10000, portGap := 1000 }

/-- Two plain host devices. -/
def tdH1 : TopoDev := { name := "h1", fn := DeviceFunction.host }

/-- Second plain host device. -/
def tdH2 : TopoDev := { name := "h2", fn := DeviceFunction.host }

/-- A management-server device (function `oob-server`). -/
def tdS1 : TopoDev := { name := "s1", fn := DeviceFunction.oobServer }

/-- `h1` as `setupAutoMgmtNetwork` sees it. -/
def mdH1 : MDev := { name := "h1", fn := DeviceFunction.host }

/-- `h2` as `setupAutoMgmtNetwork` sees it. -/
def mdH2 : MDev := { name := "h2", fn := DeviceFunction.host }

/-- One map-enumeration order of the device map `{h1, h2}` after the OOB
synthesis added the management server and switch. -/
def mgmtOrderA : List String :=
  ["h1", "h2", "oob-mgmt-server", "oob-mgmt-switch"]

/-- Another enumeration order of the same device map. -/
def mgmtOrderB : List String :=
  ["h2", "h1", "oob-mgmt-server", "oob-mgmt-switch"]

/-- The name-level core of `ifaceLess`: the comparator closure passed to
`sort.Slice` reads only the two interface names. -/
def nameLess (x y : String) : Bool :=
  (x = "eth0" && y ≠ "eth0") || natCompare x y < 0

/-- Fuel-indexed structural twin of `natCmpL`: the well-founded
recursion of `natCmpL` does not reduce inside the kernel, so concrete
comparisons are evaluated through this twin, which agrees with
`natCmpL` whenever the fuel is at least the total input length
(`natCmpF_eq`). -/
def natCmpF : Nat → List Char → List Char → Int
  | _, [], t => (0 : Int) - t.length
  | _, c :: s1, [] => (((c :: s1) : List Char).length : Int)
  | 0, _ :: _, _ :: _ => 0
  | fuel+1, c :: s1, d :: t1 =>
    let cs := nextChunk (c :: s1)
    let ct := nextChunk (d :: t1)
    let rest :=
      if strCmp cs ct ≠ 0 then strCmp cs ct
      else natCmpF fuel ((c :: s1).drop cs.length) ((d :: t1).drop ct.length)
    if isASCIIDigit c && isASCIIDigit d then
      let is := digitsVal cs
      let it := digitsVal ct
      if is > it then 1 else if is < it then -1 else rest
    else rest

/-- Fuel-indexed structural twin of `toChunks` (same purpose as
`natCmpF`). -/
def toChunksF : Nat → List Char → List (List Char)
  | _, [] => []
  | 0, _ :: _ => []
  | fuel+1, c :: rest =>
    nextChunk (c :: rest) ::
      toChunksF fuel ((c :: rest).drop (nextChunk (c :: rest)).length)

/-- Executable form of `natLess` (see `natLess_funext`). -/
def natLessF (a b : String) : Bool :=
  decide (natCmpF (a.data.length + b.data.length) a.data b.data < 0)

/-- Executable form of `ifaceLess` (see `ifaceLess_funext`). -/
def ifaceLessF (di dj : Iface) : Bool :=
  (di.name = "eth0" && dj.name ≠ "eth0") ||
    natCmpF (di.name.data.length + dj.name.data.length) di.name.data
      dj.name.data < 0

/-- Two links hanging off `h1`, appended in the order `eth0`, then `ab`.
The name `ab` Alphanum-compares *below* `eth0`, which breaks the
comparator's asymmetry (`ifaceLess` holds in both directions for that
pair). -/
def cexLinks : List TopoLink :=
  [⟨"h1", "eth0", "h2", "p1", none, none, false, false⟩,
   ⟨"h1", "ab", "h2", "p2", none, none, false, false⟩]

/-- Two links hanging off `h1`, appended in the order `eth0`, then
`swp1`; `swp1` Alphanum-compares above `eth0`. -/
def wLinks : List TopoLink :=
  [⟨"h1", "eth0", "h2", "p1", none, none, false, false⟩,
   ⟨"h1", "swp1", "h2", "p2", none, none, false, false⟩]

/-- The inventory device `h1` produced by `buildInventory` on `wLinks`:
`eth0` (MAC `macBase`, tunnel 10000/11000), then `swp1`. -/
def wDev : Dev :=
  ⟨"h1", DeviceFunction.host, 2130706433, none,
   [⟨"eth0", 75008265158656, "", 10000, 11000, 2130706433, false⟩,
    ⟨"swp1", 75008265158658, "", 10001, 11001, 2130706433, false⟩]⟩

/-! # Theorems -/

/-- **C3.** Management-IP assignment under auto-management is *not*
deterministic: `setupAutoMgmtNetwork` ranges over the Go map `t.devs` in
both its reservation and its allocation loop, and Go map enumeration
order is unspecified and randomized per run. For the two-host topology
`{h1, h2}` (no explicit `mgmt_ip`), the two map-enumeration orders
`mgmtOrderA` and `mgmtOrderB` — permutations of the same device map —
assign `h1` the addresses 192.168.200.1 and 192.168.200.2 respectively,
so two invocations of `Parse` need not agree. The code never sorts the
map by device name, contradicting the specification's stated iteration
discipline. -/
theorem mgmt_ip_assignment_order_dependent :
    mgmtOrderA.Perm mgmtOrderB
    ∧ mgmtIPOf (setupAutoMgmtNetwork [mdH1, mdH2] mgmtOrderA) "h1" = some 3232286721
    ∧ mgmtIPOf (setupAutoMgmtNetwork [mdH1, mdH2] mgmtOrderB) "h1" = some 3232286722
    ∧ mgmtIPOf (setupAutoMgmtNetwork [mdH1, mdH2] mgmtOrderA) "h1" ≠
        mgmtIPOf (setupAutoMgmtNetwork [mdH1, mdH2] mgmtOrderB) "h1" := by
  refine ⟨?_, by decide, by decide, by decide⟩
  decide

/-- **C9.** `createVolumeFromURL` cleans up by releasing the libvirt
*handle* (`vol.Free`), never by deleting the volume: when the HTTP GET
fails after the volume was created, the error propagates and the stream
is aborted, but the partially written volume remains in the storage pool
— on no failure environment does the worker ever issue a delete. -/
theorem fetch_failure_leaves_partial_volume :
    ((createVolumeFromURL { getOK := false }).1 = Except.error "fetch"
      ∧ VolEff.streamAbort ∈ (createVolumeFromURL { getOK := false }).2
      ∧ volRemainsInPool (createVolumeFromURL { getOK := false }).2 = true)
    ∧ (∀ env : FetchEnv, VolEff.volDelete ∉ (createVolumeFromURL env).2) := by
  refine ⟨⟨rfl, by decide, by decide⟩, ?_⟩
  intro env
  obtain ⟨h1, h2, h3, h4, h5, h6⟩ := env
  cases h1 <;> cases h2 <;> cases h3 <;> cases h4 <;> cases h5 <;> cases h6 <;> decide

/-- **C4.** The IP allocator: an allocator built from prefix `p` holds
exactly the addresses of `p` minus the network and broadcast addresses;
`reserve ip` removes `ip` and reports whether it was still present;
`allocate` removes and returns the numerically smallest remaining address
and fails exactly on the empty set (the `Sorted` hypotheses express the
representation invariant of the modelled `netaddr` set, established by
`newIPAllocator` and preserved by both operations); concretely, a `/29`
yields exactly six allocations in increasing order and a seventh fails,
and after reserving the first host address five succeed and a sixth
fails. -/
theorem ip_allocator_spec :
    (∀ (p : IPPfx) (a : Nat),
        a ∈ (newIPAllocator p).addrs ↔
          (p.network ≤ a ∧ a ≤ p.broadcast ∧ a ≠ p.network ∧ a ≠ p.broadcast))
    ∧ (∀ (al : IpAlloc) (ip : Nat), al.addrs.Sorted (· < ·) →
        ((al.reserve ip).2 = true ↔ ip ∈ al.addrs)
        ∧ ∀ x, x ∈ (al.reserve ip).1.addrs ↔ (x ∈ al.addrs ∧ x ≠ ip))
    ∧ (∀ al : IpAlloc, al.addrs.Sorted (· < ·) →
        (al.allocate = none ↔ al.addrs = [])
        ∧ ∀ ip a1, al.allocate = some (ip, a1) →
            ip ∈ al.addrs ∧ (∀ y ∈ al.addrs, ip ≤ y)
            ∧ ∀ x, x ∈ a1.addrs ↔ (x ∈ al.addrs ∧ x ≠ ip))
    ∧ (newIPAllocator ⟨3232235520, 29⟩).allocSeq 7 =
        [some 3232235521, some 3232235522, some 3232235523, some 3232235524,
         some 3232235525, some 3232235526, none]
    ∧ (((newIPAllocator ⟨3232235520, 29⟩).reserve 3232235521).1).allocSeq 6 =
        [some 3232235522, some 3232235523, some 3232235524, some 3232235525,
         some 3232235526, none] := by
  refine ⟨?_, ?_, ?_, by decide, by decide⟩
  · intro p a
    have hnd : ((List.range' p.network (2 ^ (32 - p.bits))).erase p.network).Nodup :=
      (List.nodup_range' _ _).erase _
    have h1 : 1 ≤ 2 ^ (32 - p.bits) := Nat.one_le_two_pow
    simp only [newIPAllocator, List.Nodup.mem_erase_iff hnd,
      List.Nodup.mem_erase_iff (List.nodup_range' _ _), List.mem_range'_1,
      IPPfx.broadcast]
    omega
  · intro al ip hs
    constructor
    · unfold IpAlloc.reserve
      split <;> simp_all
    · intro x
      unfold IpAlloc.reserve
      split
      · next h => simp [List.Nodup.mem_erase_iff hs.nodup, and_comm]
      · next h => simp only []; exact ⟨fun hx => ⟨hx, fun e => h (e ▸ hx)⟩, fun hx => hx.1⟩
  · intro al hs
    constructor
    · unfold IpAlloc.allocate
      cases h : al.addrs <;> simp [h]
    · intro ip a1 halloc
      obtain ⟨addrs⟩ := al
      cases addrs with
      | nil => cases halloc
      | cons x rest =>
        unfold IpAlloc.allocate at halloc
        simp only [Option.some.injEq, Prod.mk.injEq] at halloc
        obtain ⟨rfl, rfl⟩ := halloc
        rw [List.sorted_cons] at hs
        refine ⟨List.mem_cons_self _ _, ?_, ?_⟩
        · intro y hy
          rcases List.mem_cons.mp hy with rfl | hy
          · exact le_refl _
          · exact Nat.le_of_lt (hs.1 y hy)
        · intro z
          simp only [List.mem_cons]
          constructor
          · intro hz
            exact ⟨Or.inr hz, fun e => absurd (hs.1 z hz) (by simp [e])⟩
          · rintro ⟨hz | hz, hne⟩
            · exact absurd hz hne
            · exact hz

/-- Witness for `ip_allocator_spec`: the `Sorted` hypotheses are
discharged at the concrete `/29` allocator. -/
theorem ip_allocator_spec_witness :
    (((newIPAllocator ⟨3232235520, 29⟩).reserve 3232235521).2 = true ↔
        3232235521 ∈ (newIPAllocator ⟨3232235520, 29⟩).addrs)
    ∧ ((newIPAllocator ⟨3232235520, 29⟩).allocate = none ↔
        (newIPAllocator ⟨3232235520, 29⟩).addrs = []) :=
  ⟨(ip_allocator_spec.2.1 _ 3232235521 (by decide)).1,
   (ip_allocator_spec.2.2.1 _ (by decide)).1⟩

/-- **C5.** Hostname validation crashes instead of failing cleanly on
one-letter names: the device name `a` does not match the specification's
pattern `[A-Za-z][A-Za-z0-9-]*[A-Za-z0-9]` (which needs two characters),
yet `isValidHostname` evaluates the slice `s[1:0]` for it and panics, so
`Parse` crashes rather than returning the promised `invalid hostname`
error. On every name of length ≠ 1 the validator agrees exactly with the
pattern, and a topology all of whose names match the pattern is never
rejected (or crashed) by the hostname check. -/
theorem hostname_validation_spec :
    checkHostnames ["a"] = none
    ∧ hostnamePat "a" = false
    ∧ (∀ s : String, s.data.length ≠ 1 → isValidHostname s = some (hostnamePat s))
    ∧ (∀ names : List String, (∀ n ∈ names, hostnamePat n = true) →
        checkHostnames names = some (Except.ok ())) := by
  have hlen : ∀ s : String, s.data.length ≠ 1 → isValidHostname s = some (hostnamePat s) := by
    intro s hs
    unfold isValidHostname hostnamePat
    match h : s.data with
    | [] => rfl
    | [c] => exact absurd (by rw [h]; rfl) hs
    | c :: d :: r =>
      cases ha : isASCIIAlpha c <;>
        simp [ha, List.getLast]
  refine ⟨rfl, rfl, hlen, ?_⟩
  intro names hall
  induction names with
  | nil => rfl
  | cons n rest ih =>
    have hn : hostnamePat n = true := hall n (List.mem_cons_self _ _)
    have hlen1 : n.data.length ≠ 1 := by
      intro h1
      match h : n.data, h1 with
      | [c], _ =>
        unfold hostnamePat at hn
        rw [h] at hn
        cases hn
    unfold checkHostnames
    rw [hlen n hlen1, hn]
    exact ih (fun m hm => hall m (List.mem_cons_of_mem _ hm))

/-- Witness for `hostname_validation_spec`: its quantified parts applied
at the two-character name `ab` and at a concrete valid name list. -/
theorem hostname_validation_spec_witness :
    isValidHostname "ab" = some (hostnamePat "ab")
    ∧ checkHostnames ["leaf01", "spine0"] = some (Except.ok ()) :=
  ⟨hostname_validation_spec.2.2.1 "ab" (by decide),
   hostname_validation_spec.2.2.2 ["leaf01", "spine0"] (by decide)⟩

/-- **C10.** `gatherHosts` unconditionally reads `d.interfaces[0]` for
every inventory device other than the two OOB management devices: when
every such device has at least one interface the access is in bounds and
a host list is produced, but the valid topology `{h1 (host, no links),
s1 (oob-server)}` — whose customization does call `gatherHosts`, since a
device of function `oob-server` is present — builds an inventory where
`h1` has no interfaces, and the access panics instead of returning a
host list. -/
theorem gatherHosts_indexes_first_interface :
    (∀ devs : List Dev,
        (∀ d ∈ devs, d.name ≠ "oob-mgmt-server" → d.name ≠ "oob-mgmt-switch" →
          d.interfaces ≠ []) →
        (gatherHosts devs).isSome)
    ∧ customizeCallsGatherHosts (buildInventory defaultCfg [tdH1, tdS1] []) = true
    ∧ gatherHosts (buildInventory defaultCfg [tdH1, tdS1] []) = none := by
  refine ⟨?_, by decide, by decide⟩
  intro devs h
  induction devs with
  | nil => rfl
  | cons d rest ih =>
    have hrest := ih (fun d2 h2 => h d2 (List.mem_cons_of_mem _ h2))
    unfold gatherHosts
    split
    · exact hrest
    · next hoob =>
      rw [Bool.or_eq_true, decide_eq_true_iff, decide_eq_true_iff] at hoob
      push_neg at hoob
      match hi : d.interfaces with
      | [] =>
        exact absurd hi (h d (List.mem_cons_self _ _) hoob.1 hoob.2)
      | eth0 :: r =>
        dsimp only
        split
        · exact hrest
        · cases d.mgmtIP with
          | none => exact hrest
          | some ip => simpa using hrest

/-- Witness for `gatherHosts_indexes_first_interface`: the in-bounds part
applied to a one-device inventory whose device has an interface. -/
theorem gatherHosts_indexes_first_interface_witness :
    (gatherHosts
      [⟨"h1", DeviceFunction.host, 0, none, [⟨"eth0", 1, "", 0, 0, 0, false⟩]⟩]).isSome :=
  gatherHosts_indexes_first_interface.1 _ (by decide)

/-- Two strings whose first characters differ are different. -/
theorem ne_of_data_head (c1 c2 : Char) {s t : String}
    (h1 : s.data.head? = some c1) (h2 : t.data.head? = some c2)
    (h : c1 ≠ c2) : s ≠ t := by
  intro e
  rw [e, h2] at h1
  exact h (Option.some.inj h1).symm

/-- **C8 (counterexample).** For a `leaf` device — or any Cumulus-like
function — `commandsForFunction` returns from the Cumulus branch without
ever writing `selinux-relabel`: the stream's last command is the
`/etc/hostname` write, not `selinux-relabel`, falsifying the claim that
every function's stream terminates with it. -/
theorem cumulus_commands_lack_relabel :
    (commandsForFunction ⟨"leaf1", DeviceFunction.leaf, 0, none, []⟩
        ⟨0, 24⟩ "PW").getLast? = some "write /etc/hostname:leaf1\\\n\n"
    ∧ "selinux-relabel\n" ∉
        commandsForFunction ⟨"leaf1", DeviceFunction.leaf, 0, none, []⟩ ⟨0, 24⟩ "PW" := by
  constructor
  · rfl
  · decide

/-- **C8 (amended).** `selinux-relabel` terminates the command stream
exactly for the non-Cumulus functions: for every device of a non-Cumulus
function the stream's last command is `selinux-relabel` (after every
other, filesystem-mutating, command of the stream); for every
Cumulus-like device the stream contains no `selinux-relabel` at all. -/
theorem commandsForFunction_relabel_amended :
    (∀ (d : Dev) (p : IPPfx) (pw : String), hasCumulusFunction d = false →
        (commandsForFunction d p pw).getLast? = some "selinux-relabel\n")
    ∧ (∀ (d : Dev) (p : IPPfx) (pw : String), hasCumulusFunction d = true →
        "selinux-relabel\n" ∉ commandsForFunction d p pw) := by
  constructor
  · intro d p pw hcum
    rw [commandsForFunction, if_neg (by simp [hcum])]
    rw [List.append_assoc, List.getLast?_append, List.getLast?_append]
    simp
  · intro d p pw hcum
    rw [commandsForFunction, if_pos hcum]
    intro hmem
    rcases List.mem_append.mp hmem with hmem | hmem
    · simp only [List.mem_cons, List.not_mem_nil, or_false] at hmem
      rcases hmem with h | h | h | h | h | h
      · exact absurd h (by decide)
      · exact absurd h (by decide)
      · exact absurd h (by decide)
      · exact absurd h (by decide)
      · exact absurd h
          (ne_of_data_head 's' 'r' rfl (by simp [String.data_append]) (by decide))
      · exact absurd h
          (ne_of_data_head 's' 'w' rfl (by simp [String.data_append]) (by decide))
    · revert hmem
      split
      · intro hmem
        simp only [writeExtraMgmtSwitchCommands, List.mem_cons, List.not_mem_nil,
          or_false] at hmem
        exact absurd hmem
          (ne_of_data_head 's' 'w' rfl (by simp [String.data_append]) (by decide))
      · intro hmem
        simp at hmem

/-- Witness for `commandsForFunction_relabel_amended`: applied to a
concrete `host` device and a concrete `oob-switch` device. -/
theorem commandsForFunction_relabel_amended_witness :
    (commandsForFunction ⟨"h1", DeviceFunction.host, 0, none, []⟩ ⟨0, 24⟩
        "PW").getLast? = some "selinux-relabel\n"
    ∧ "selinux-relabel\n" ∉
        commandsForFunction ⟨"sw1", DeviceFunction.oobSwitch, 0, none, []⟩ ⟨0, 24⟩ "PW" :=
  ⟨commandsForFunction_relabel_amended.1 _ _ _ (by decide),
   commandsForFunction_relabel_amended.2 _ _ _ (by decide)⟩

/-- A successful map lookup returns a device of the looked-up name. -/
theorem findDev_name (devs : List Dev) (n : String) (d : Dev)
    (h : findDev devs n = some d) : d.name = n := by
  have := List.find?_some h
  simpa using this

/-- Appending an interface to device `n` acts on lookups as a `map` over
the found device (whose name carries over unchanged). -/
theorem findDev_appendIface (devs : List Dev) (n m : String) (i : Iface) :
    findDev (appendIface devs n i) m =
      (findDev devs m).map
        (fun d => if d.name = n then { d with interfaces := d.interfaces ++ [i] }
                  else d) := by
  unfold findDev appendIface
  rw [List.find?_map]
  have hp : ((fun d => decide (d.name = m)) ∘ fun d =>
      if d.name = n then { d with interfaces := d.interfaces ++ [i] } else d) =
      (fun d : Dev => decide (d.name = m)) := by
    funext d
    by_cases hd : d.name = n <;> simp [hd]
  rw [hp]

/-- Appending an interface to device `n` changes exactly that device's
interface list under lookup of `n`. -/
theorem findDev_appendIface_self (devs : List Dev) (n : String) (i : Iface) :
    findDev (appendIface devs n i) n =
      (findDev devs n).map (fun d => { d with interfaces := d.interfaces ++ [i] }) := by
  rw [findDev_appendIface]
  cases hfd : findDev devs n with
  | none => rfl
  | some d => simp [findDev_name _ _ _ hfd]

/-- Appending an interface to device `n` leaves lookups of other names
unchanged. -/
theorem findDev_appendIface_ne (devs : List Dev) (n m : String) (i : Iface)
    (h : m ≠ n) :
    findDev (appendIface devs n i) m = findDev devs m := by
  rw [findDev_appendIface]
  cases hfd : findDev devs m with
  | none => rfl
  | some d => simp [findDev_name _ _ _ hfd, h]

/-- `toSide` never touches the port counter. -/
theorem toSide_nextPort (cfg : RunnerCfg) (st : InvState) (ip : Nat) (l : TopoLink) :
    (toSide cfg st ip l).nextPort = st.nextPort := by
  unfold toSide
  cases findDev st.devs l.linkTo <;> rfl

/-- **C1.** Tunnel-port symmetry of the link walk. Walking `t.Links()`
from the state after any prefix `pre`: the counter starts at `portBase`;
a link whose endpoints are both devices of the inventory (non-fake
topology devices) appends, with `base` the counter's current value, a
`from`-side interface sending to remote port `base` and bound to
`localPort = base + portGap`, and a `to`-side interface sending to
`base + portGap` and bound to `base`; each side's remote tunnel IP is
the other side's `tunnelIP`, and the counter advances by exactly one. A
half-open link (`linkTo = ""`) from `oob-mgmt-server` or
`oob-mgmt-switch` instead appends a single interface with network
`"default"` and leaves the counter unchanged. -/
theorem tunnel_port_symmetry (cfg : RunnerCfg) (tds : List TopoDev)
    (pre : List TopoLink) (l : TopoLink) :
    (runLinks cfg tds []).nextPort = cfg.portBase
    ∧ (∀ u v, findDev (runLinks cfg tds pre).devs l.linkFrom = some u →
        findDev (runLinks cfg tds pre).devs l.linkTo = some v →
        l.linkTo ≠ "" → l.linkFrom ≠ l.linkTo →
        (runLinks cfg tds (pre ++ [l])).nextPort =
            (runLinks cfg tds pre).nextPort + 1
        ∧ (∃ m1, findDev (runLinks cfg tds (pre ++ [l])).devs l.linkFrom =
            some { u with interfaces := u.interfaces ++
              [{ name := l.linkFromPort, mac := m1,
                 port := (runLinks cfg tds pre).nextPort,
                 localPort := (runLinks cfg tds pre).nextPort + cfg.portGap,
                 remoteTunnelIP := v.tunnelIP, pxe := l.leftPxe }] })
        ∧ (∃ m2, findDev (runLinks cfg tds (pre ++ [l])).devs l.linkTo =
            some { v with interfaces := v.interfaces ++
              [{ name := l.linkToPort, mac := m2,
                 port := (runLinks cfg tds pre).nextPort + cfg.portGap,
                 localPort := (runLinks cfg tds pre).nextPort,
                 remoteTunnelIP := u.tunnelIP, pxe := l.rightPxe }] }))
    ∧ (∀ u, findDev (runLinks cfg tds pre).devs l.linkFrom = some u →
        (l.linkFrom = "oob-mgmt-server" ∨ l.linkFrom = "oob-mgmt-switch") →
        l.linkTo = "" →
        (runLinks cfg tds (pre ++ [l])).nextPort = (runLinks cfg tds pre).nextPort
        ∧ (∃ m, findDev (runLinks cfg tds (pre ++ [l])).devs l.linkFrom =
            some { u with interfaces := u.interfaces ++
              [{ name := l.linkFromPort, mac := m, network := "default" }] })) := by
  have hstep : runLinks cfg tds (pre ++ [l]) =
      linkStep cfg (runLinks cfg tds pre) l := by
    unfold runLinks
    rw [List.foldl_append]
    rfl
  set st := runLinks cfg tds pre with hst
  refine ⟨rfl, ?_, ?_⟩
  · intro u v hFu hTv hTne hFT
    have hho : halfOpenOOB l = false := by
      unfold halfOpenOOB
      simp [hTne]
    have hTF : l.linkTo ≠ l.linkFrom := fun e => hFT e.symm
    rw [hstep]
    unfold linkStep
    rw [hFu]
    dsimp only
    rw [hho, if_neg Bool.false_ne_true]
    dsimp only
    unfold toSide
    rw [findDev_appendIface_ne _ _ _ _ hTF, hTv]
    dsimp only
    refine ⟨rfl, ⟨macOf st.macInt l.leftMac, ?_⟩,
      ⟨macOf (macNext st.macInt l.leftMac) l.rightMac, ?_⟩⟩
    · rw [findDev_appendIface_ne _ _ _ _ hFT, findDev_appendIface_self, hFu]
      rfl
    · rw [findDev_appendIface_self, findDev_appendIface_ne _ _ _ _ hTF, hTv]
      rfl
  · intro u hFu hoob hto
    have hho : halfOpenOOB l = true := by
      unfold halfOpenOOB
      rcases hoob with h | h <;> simp [h, hto]
    rw [hstep]
    unfold linkStep
    rw [hFu]
    dsimp only
    rw [hho, if_pos rfl]
    dsimp only
    refine ⟨rfl, ⟨macOf st.macInt l.leftMac, ?_⟩⟩
    rw [findDev_appendIface_self, hFu]
    rfl

/-- Witness for `tunnel_port_symmetry`: its tunnel clause applied to the
one-link topology `h1:eth0 — h2:swp7` under the default configuration. -/
theorem tunnel_port_symmetry_witness :
    (runLinks defaultCfg [tdH1, tdH2]
        [⟨"h1", "eth0", "h2", "swp7", none, none, false, false⟩]).nextPort =
      (runLinks defaultCfg [tdH1, tdH2] ([] : List TopoLink)).nextPort + 1 :=
  ((tunnel_port_symmetry defaultCfg [tdH1, tdH2] []
      ⟨"h1", "eth0", "h2", "swp7", none, none, false, false⟩).2.1
    ⟨"h1", DeviceFunction.host, 2130706433, none, []⟩
    ⟨"h2", DeviceFunction.host, 2130706433, none, []⟩
    (by decide) (by decide) (by decide) (by decide)).1

/-- Appending an interface anywhere preserves which lookups succeed. -/
theorem isSome_findDev_appendIface (devs : List Dev) (n m : String) (i : Iface) :
    (findDev (appendIface devs n i) m).isSome = (findDev devs m).isSome := by
  rw [findDev_appendIface]
  cases findDev devs m <;> rfl

/-- `toSide` preserves which lookups succeed. -/
theorem toSide_devs_isSome (cfg : RunnerCfg) (st : InvState) (ip : Nat)
    (l : TopoLink) (m : String) :
    (findDev (toSide cfg st ip l).devs m).isSome = (findDev st.devs m).isSome := by
  unfold toSide
  cases h : findDev st.devs l.linkTo with
  | none => rfl
  | some d => exact isSome_findDev_appendIface _ _ _ _

/-- One link-walk step preserves which lookups succeed. -/
theorem linkStep_devs_isSome (cfg : RunnerCfg) (st : InvState) (l : TopoLink)
    (m : String) :
    (findDev (linkStep cfg st l).devs m).isSome = (findDev st.devs m).isSome := by
  unfold linkStep
  cases hF : findDev st.devs l.linkFrom with
  | none =>
    dsimp only
    exact toSide_devs_isSome _ _ _ _ _
  | some fromDev =>
    dsimp only
    split
    · exact isSome_findDev_appendIface _ _ _ _
    · rw [toSide_devs_isSome]
      exact isSome_findDev_appendIface _ _ _ _

/-- Along the whole link walk, a name resolves exactly when it resolves
in the initial device map (`devKnown`). -/
theorem runLinks_devs_isSome (cfg : RunnerCfg) (tds : List TopoDev)
    (links : List TopoLink) (m : String) :
    (findDev (runLinks cfg tds links).devs m).isSome = devKnown cfg tds m := by
  induction links using List.reverseRecOn with
  | nil => rfl
  | append_singleton ls l ih =>
    have hstep : runLinks cfg tds (ls ++ [l]) = linkStep cfg (runLinks cfg tds ls) l := by
      unfold runLinks
      rw [List.foldl_append]
      rfl
    rw [hstep, linkStep_devs_isSome, ih]

/-- The counter after one endpoint, as counter plus indicator. -/
theorem macNext_eq (x : Nat) (o : Option Nat) :
    macNext x o = x + (if o.isNone then 1 else 0) := by
  cases o <;> rfl

/-- `toSide` leaves the counter alone iff the `to` endpoint is unknown. -/
theorem toSide_macInt (cfg : RunnerCfg) (st : InvState) (ip : Nat) (l : TopoLink) :
    (toSide cfg st ip l).macInt =
      if (findDev st.devs l.linkTo).isSome then macNext st.macInt l.rightMac
      else st.macInt := by
  unfold toSide
  cases h : findDev st.devs l.linkTo <;> rfl

/-- One link-walk step advances the MAC counter by exactly the link's
`linkAutoCount` (stated against the current state's lookups). -/
theorem linkStep_macInt (cfg : RunnerCfg) (st : InvState) (l : TopoLink) :
    (linkStep cfg st l).macInt = st.macInt +
      ((if (findDev st.devs l.linkFrom).isSome && l.leftMac.isNone then 1 else 0) +
       (if (findDev st.devs l.linkFrom).isSome && halfOpenOOB l then 0
        else if (findDev st.devs l.linkTo).isSome && l.rightMac.isNone then 1 else 0)) := by
  unfold linkStep
  cases hF : findDev st.devs l.linkFrom with
  | none =>
    dsimp only
    rw [toSide_macInt, macNext_eq]
    cases hT : findDev st.devs l.linkTo <;> cases l.rightMac <;> simp
  | some fromDev =>
    dsimp only
    split
    · next hho =>
      rw [macNext_eq]
      cases hl : l.leftMac <;> simp [hho, hl]
    · next hho =>
      have hho2 : halfOpenOOB l = false := by
        cases h2 : halfOpenOOB l
        · rfl
        · exact absurd h2 hho
      rw [toSide_macInt]
      dsimp only
      rw [isSome_findDev_appendIface]
      cases hT : (findDev st.devs l.linkTo).isSome <;>
        cases hl : l.leftMac <;> cases hr : l.rightMac <;>
          simp [macNext_eq, hho2, hT, hl, hr]

/-- The endpoint MAC as the explicit attribute with counter fallback. -/
theorem macOf_eq_getD (x : Nat) (o : Option Nat) : macOf x o = o.getD x := by
  cases o <;> rfl

/-- **C2 (amended).** MAC allocation along the link walk: the counter
equals `macBase` plus the number of endpoints auto-assigned so far
(`linkAutoCount` per link), so auto-assigned MACs are the consecutive
sequence `macBase, macBase+1, …` in walk order; an endpoint that lands on
an inventory device receives its explicit MAC when one is configured —
without advancing the counter — and the counter's current value
otherwise. (The claim's further assertion that no auto-assigned MAC
equals an explicit one is false — see the counterexample — and is
dropped.) The `Nat` counter mirrors Go exactly as long as
`macBase + #allocations` stays below `2^48`; beyond that
`macAddrFromUint64` panics rather than wraps. -/
theorem mac_allocation_amended (cfg : RunnerCfg) (tds : List TopoDev) :
    (∀ links : List TopoLink,
        (runLinks cfg tds links).macInt =
          cfg.macBase + ((links.map (linkAutoCount cfg tds)).sum))
    ∧ (∀ (pre : List TopoLink) (l : TopoLink) (u : Dev),
        findDev (runLinks cfg tds pre).devs l.linkFrom = some u →
        halfOpenOOB l = false → l.linkFrom ≠ l.linkTo →
        findDev (runLinks cfg tds (pre ++ [l])).devs l.linkFrom =
          some { u with interfaces := u.interfaces ++
            [{ name := l.linkFromPort,
               mac := l.leftMac.getD (runLinks cfg tds pre).macInt,
               port := (runLinks cfg tds pre).nextPort,
               localPort := (runLinks cfg tds pre).nextPort + cfg.portGap,
               remoteTunnelIP := ((findDev (runLinks cfg tds pre).devs l.linkTo).map
                 Dev.tunnelIP).getD cfg.tunnelIP,
               pxe := l.leftPxe }] })
    ∧ (∀ (pre : List TopoLink) (l : TopoLink) (u : Dev),
        findDev (runLinks cfg tds pre).devs l.linkFrom = some u →
        (l.linkFrom = "oob-mgmt-server" ∨ l.linkFrom = "oob-mgmt-switch") →
        l.linkTo = "" →
        findDev (runLinks cfg tds (pre ++ [l])).devs l.linkFrom =
          some { u with interfaces := u.interfaces ++
            [{ name := l.linkFromPort,
               mac := l.leftMac.getD (runLinks cfg tds pre).macInt,
               network := "default" }] })
    ∧ (∀ (pre : List TopoLink) (l : TopoLink) (v : Dev),
        findDev (runLinks cfg tds pre).devs l.linkTo = some v →
        ¬((findDev (runLinks cfg tds pre).devs l.linkFrom).isSome = true ∧
            halfOpenOOB l = true) →
        l.linkFrom ≠ l.linkTo →
        findDev (runLinks cfg tds (pre ++ [l])).devs l.linkTo =
          some { v with interfaces := v.interfaces ++
            [{ name := l.linkToPort,
               mac := l.rightMac.getD ((runLinks cfg tds pre).macInt +
                 (if (findDev (runLinks cfg tds pre).devs l.linkFrom).isSome = true ∧
                     l.leftMac = none then 1 else 0)),
               port := (runLinks cfg tds pre).nextPort + cfg.portGap,
               localPort := (runLinks cfg tds pre).nextPort,
               remoteTunnelIP := ((findDev (runLinks cfg tds pre).devs l.linkFrom).map
                 Dev.tunnelIP).getD cfg.tunnelIP,
               pxe := l.rightPxe }] }) := by
  have hstep : ∀ pre l, runLinks cfg tds (pre ++ [l]) =
      linkStep cfg (runLinks cfg tds pre) l := by
    intro pre l
    unfold runLinks
    rw [List.foldl_append]
    rfl
  refine ⟨?_, ?_, ?_, ?_⟩
  · intro links
    induction links using List.reverseRecOn with
    | nil => rfl
    | append_singleton ls l ih =>
      rw [hstep, linkStep_macInt, ih, runLinks_devs_isSome, runLinks_devs_isSome,
        List.map_append, List.sum_append]
      unfold linkAutoCount
      simp only [List.map_cons, List.map_nil, List.sum_cons, List.sum_nil]
      omega
  · intro pre l u hFu hho hFT
    set st := runLinks cfg tds pre with hst
    have hTF : l.linkTo ≠ l.linkFrom := fun e => hFT e.symm
    rw [hstep]
    unfold linkStep
    rw [hFu]
    dsimp only
    rw [hho, if_neg Bool.false_ne_true]
    dsimp only
    unfold toSide
    rw [findDev_appendIface_ne _ _ _ _ hTF]
    cases hT : findDev st.devs l.linkTo with
    | none =>
      dsimp only
      rw [findDev_appendIface_self, hFu, macOf_eq_getD]
      rfl
    | some v =>
      dsimp only
      rw [findDev_appendIface_ne _ _ _ _ hFT, findDev_appendIface_self, hFu,
        macOf_eq_getD]
      rfl
  · intro pre l u hFu hoob hto
    set st := runLinks cfg tds pre with hst
    have hho : halfOpenOOB l = true := by
      unfold halfOpenOOB
      rcases hoob with h | h <;> simp [h, hto]
    rw [hstep]
    unfold linkStep
    rw [hFu]
    dsimp only
    rw [hho, if_pos rfl]
    dsimp only
    rw [findDev_appendIface_self, hFu, macOf_eq_getD]
    rfl
  · intro pre l v hTv hcond hFT
    set st := runLinks cfg tds pre with hst
    have hTF : l.linkTo ≠ l.linkFrom := fun e => hFT e.symm
    rw [hstep]
    unfold linkStep
    cases hF : findDev st.devs l.linkFrom with
    | none =>
      dsimp only
      unfold toSide
      rw [hTv]
      dsimp only
      rw [findDev_appendIface_self, hTv]
      simp [macOf_eq_getD]
    | some fromDev =>
      have hho : halfOpenOOB l = false := by
        cases h2 : halfOpenOOB l
        · rfl
        · exact absurd ⟨by rw [hF]; rfl, h2⟩ hcond
      dsimp only
      rw [hho, if_neg Bool.false_ne_true]
      dsimp only
      unfold toSide
      rw [findDev_appendIface_ne _ _ _ _ hTF, hTv]
      dsimp only
      rw [findDev_appendIface_self, findDev_appendIface_ne _ _ _ _ hTF, hTv]
      cases hl : l.leftMac <;> cases hr : l.rightMac <;>
        simp [macOf, macNext, hl, hr]

/-- **C2 (counterexample).** Nothing prevents an auto-assigned MAC from
duplicating an explicitly configured one: on the single link
`h1:p1 — h2:p2` whose `left_mac` is the default MAC base
`44:38:39:00:00:00`, `h1:p1` receives that MAC explicitly (the counter
does not advance), and the auto-assigned MAC of `h2:p2` is the counter's
first value — the very same address. -/
theorem auto_mac_collides_with_explicit :
    ((findDev (buildInventory defaultCfg [tdH1, tdH2]
        [⟨"h1", "p1", "h2", "p2", some 75008265158656, none, false, false⟩]) "h1").map
      (fun d => d.interfaces.map Iface.mac) = some [75008265158656])
    ∧ ((findDev (buildInventory defaultCfg [tdH1, tdH2]
        [⟨"h1", "p1", "h2", "p2", some 75008265158656, none, false, false⟩]) "h2").map
      (fun d => d.interfaces.map Iface.mac) = some [75008265158656])
    ∧ defaultCfg.macBase = 75008265158656 := by
  refine ⟨by decide, by decide, rfl⟩

/-- Witness for `mac_allocation_amended`: its `from`-side clause applied
to the one-link topology `h1:p1 — h2:p2` under the default
configuration. -/
theorem mac_allocation_amended_witness :
    findDev (runLinks defaultCfg [tdH1, tdH2]
        ([] ++ [⟨"h1", "p1", "h2", "p2", none, none, false, false⟩])).devs "h1" =
      some ⟨"h1", DeviceFunction.host, 2130706433, none,
        [] ++ [⟨"p1",
          (none : Option Nat).getD (runLinks defaultCfg [tdH1, tdH2] []).macInt, "",
          (runLinks defaultCfg [tdH1, tdH2] []).nextPort,
          (runLinks defaultCfg [tdH1, tdH2] []).nextPort + defaultCfg.portGap,
          ((findDev (runLinks defaultCfg [tdH1, tdH2] []).devs "h2").map
            Dev.tunnelIP).getD defaultCfg.tunnelIP, false⟩]⟩ :=
  (mac_allocation_amended defaultCfg [tdH1, tdH2]).2.1 []
    ⟨"h1", "p1", "h2", "p2", none, none, false, false⟩
    ⟨"h1", DeviceFunction.host, 2130706433, none, []⟩
    (by decide) (by decide) (by decide)

/-- `strings.Compare` returns only -1, 0 or 1. -/
theorem strCmp_cases (a b : List Char) :
    strCmp a b = -1 ∨ strCmp a b = 0 ∨ strCmp a b = 1 := by
  induction a generalizing b with
  | nil => cases b <;> simp [strCmp]
  | cons x xs ih =>
    cases b with
    | nil => simp [strCmp]
    | cons y ys =>
      unfold strCmp
      split
      · simp
      · split
        · simp
        · exact ih ys

/-- `strings.Compare` is antisymmetric. -/
theorem strCmp_neg (a b : List Char) : strCmp b a = -strCmp a b := by
  induction a generalizing b with
  | nil => cases b <;> simp [strCmp]
  | cons x xs ih =>
    cases b with
    | nil => simp [strCmp]
    | cons y ys =>
      unfold strCmp
      rcases lt_trichotomy x y with h | h | h
      · simp [h, lt_asymm h]
      · subst h
        simp [lt_irrefl, ih ys]
      · simp [h, lt_asymm h]

/-- `strings.Compare` separates points. -/
theorem strCmp_eq_zero (a b : List Char) (h : strCmp a b = 0) : a = b := by
  induction a generalizing b with
  | nil => cases b with
    | nil => rfl
    | cons y ys => simp [strCmp] at h
  | cons x xs ih =>
    cases b with
    | nil => simp [strCmp] at h
    | cons y ys =>
      unfold strCmp at h
      rcases lt_trichotomy x y with hxy | hxy | hxy
      · rw [if_pos hxy] at h
        cases h
      · subst hxy
        rw [if_neg (lt_irrefl x), if_neg (lt_irrefl x)] at h
        rw [ih ys h]
      · rw [if_neg (lt_asymm hxy), if_pos hxy] at h
        cases h

/-- A list is its `takeWhile` prefix followed by the rest. -/
theorem takeWhile_append_drop (p : Char → Bool) (l : List Char) :
    l.takeWhile p ++ l.drop (l.takeWhile p).length = l := by
  induction l with
  | nil => rfl
  | cons a l ih =>
    by_cases h : p a
    · simp [List.takeWhile_cons, h, ih]
    · simp [List.takeWhile_cons, h]

/-- The chunk is a prefix: a string is its first chunk followed by the
rest. -/
theorem nextChunk_prefix (s : List Char) :
    nextChunk s ++ s.drop (nextChunk s).length = s := by
  cases s with
  | nil => rfl
  | cons c s1 =>
    by_cases h : isASCIIDigit c <;>
      simp [nextChunk, h, List.drop_succ_cons, takeWhile_append_drop]

/-- One-step unfolding of `natCmpL` on two non-empty strings. -/
theorem natCmpL_cons_cons (c : Char) (s1 : List Char) (d : Char) (t1 : List Char) :
    natCmpL (c :: s1) (d :: t1) =
      (if isASCIIDigit c && isASCIIDigit d then
        if digitsVal (nextChunk (c :: s1)) > digitsVal (nextChunk (d :: t1)) then 1
        else if digitsVal (nextChunk (c :: s1)) < digitsVal (nextChunk (d :: t1)) then -1
        else
          if strCmp (nextChunk (c :: s1)) (nextChunk (d :: t1)) ≠ 0 then
            strCmp (nextChunk (c :: s1)) (nextChunk (d :: t1))
          else natCmpL ((c :: s1).drop (nextChunk (c :: s1)).length)
            ((d :: t1).drop (nextChunk (d :: t1)).length)
      else
        if strCmp (nextChunk (c :: s1)) (nextChunk (d :: t1)) ≠ 0 then
          strCmp (nextChunk (c :: s1)) (nextChunk (d :: t1))
        else natCmpL ((c :: s1).drop (nextChunk (c :: s1)).length)
          ((d :: t1).drop (nextChunk (d :: t1)).length)) := by
  rw [natCmpL]

/-- `natCompare` is antisymmetric: swapping the arguments negates it. -/
theorem natCmpL_neg (s t : List Char) : natCmpL t s = -natCmpL s t := by
  induction s, t using natCmpL.induct with
  | case1 t =>
    cases t with
    | nil =>
      rw [natCmpL]
      rfl
    | cons d t1 =>
      show natCmpL (d :: t1) [] = -natCmpL [] (d :: t1)
      rw [natCmpL, natCmpL]
      omega
  | case2 c s1 =>
    show natCmpL [] (c :: s1) = -natCmpL (c :: s1) []
    rw [natCmpL, natCmpL]
    omega
  | case3 c s1 d t1 cs ct hdig is it hgt ih =>
    have hdig2 : (isASCIIDigit d && isASCIIDigit c) = true := by
      rw [Bool.and_comm]; exact hdig
    have hgt2 : digitsVal (nextChunk (c :: s1)) > digitsVal (nextChunk (d :: t1)) := hgt
    have hstr := strCmp_neg (nextChunk (c :: s1)) (nextChunk (d :: t1))
    have ihe : natCmpL (List.drop (nextChunk (d :: t1)).length (d :: t1))
        (List.drop (nextChunk (c :: s1)).length (c :: s1)) =
        -natCmpL (List.drop (nextChunk (c :: s1)).length (c :: s1))
          (List.drop (nextChunk (d :: t1)).length (d :: t1)) := ih
    rw [natCmpL_cons_cons, natCmpL_cons_cons, if_pos hdig, if_pos hdig2]
    split_ifs <;> omega
  | case4 c s1 d t1 cs ct hdig is it hngt hlt ih =>
    have hdig2 : (isASCIIDigit d && isASCIIDigit c) = true := by
      rw [Bool.and_comm]; exact hdig
    have hlt2 : digitsVal (nextChunk (c :: s1)) < digitsVal (nextChunk (d :: t1)) := hlt
    have hstr := strCmp_neg (nextChunk (c :: s1)) (nextChunk (d :: t1))
    have ihe : natCmpL (List.drop (nextChunk (d :: t1)).length (d :: t1))
        (List.drop (nextChunk (c :: s1)).length (c :: s1)) =
        -natCmpL (List.drop (nextChunk (c :: s1)).length (c :: s1))
          (List.drop (nextChunk (d :: t1)).length (d :: t1)) := ih
    rw [natCmpL_cons_cons, natCmpL_cons_cons, if_pos hdig, if_pos hdig2]
    split_ifs <;> omega
  | case5 c s1 d t1 cs ct hdig is it hngt hnlt ih =>
    have hdig2 : (isASCIIDigit d && isASCIIDigit c) = true := by
      rw [Bool.and_comm]; exact hdig
    have hngt2 : ¬ digitsVal (nextChunk (c :: s1)) > digitsVal (nextChunk (d :: t1)) := hngt
    have hnlt2 : ¬ digitsVal (nextChunk (c :: s1)) < digitsVal (nextChunk (d :: t1)) := hnlt
    have hstr := strCmp_neg (nextChunk (c :: s1)) (nextChunk (d :: t1))
    have ihe : natCmpL (List.drop (nextChunk (d :: t1)).length (d :: t1))
        (List.drop (nextChunk (c :: s1)).length (c :: s1)) =
        -natCmpL (List.drop (nextChunk (c :: s1)).length (c :: s1))
          (List.drop (nextChunk (d :: t1)).length (d :: t1)) := ih
    rw [natCmpL_cons_cons, natCmpL_cons_cons, if_pos hdig, if_pos hdig2]
    split_ifs <;> omega
  | case6 c s1 d t1 cs ct hdig ih =>
    have hdig2 : (isASCIIDigit d && isASCIIDigit c) ≠ true := by
      rw [Bool.and_comm]; exact hdig
    have hstr := strCmp_neg (nextChunk (c :: s1)) (nextChunk (d :: t1))
    have ihe : natCmpL (List.drop (nextChunk (d :: t1)).length (d :: t1))
        (List.drop (nextChunk (c :: s1)).length (c :: s1)) =
        -natCmpL (List.drop (nextChunk (c :: s1)).length (c :: s1))
          (List.drop (nextChunk (d :: t1)).length (d :: t1)) := ih
    rw [natCmpL_cons_cons, natCmpL_cons_cons, if_neg hdig, if_neg hdig2]
    split_ifs <;> omega

/-- `natCompare` separates points: only equal strings compare equal. -/
theorem natCmpL_eq_zero (s t : List Char) (h : natCmpL s t = 0) : s = t := by
  induction s, t using natCmpL.induct with
  | case1 t =>
    cases t with
    | nil => rfl
    | cons d t1 =>
      rw [natCmpL] at h
      simp at h
      omega
  | case2 c s1 =>
    rw [natCmpL] at h
    simp at h
    omega
  | case3 c s1 d t1 cs ct hdig is it hgt ih =>
    have hgt2 : digitsVal (nextChunk (c :: s1)) > digitsVal (nextChunk (d :: t1)) := hgt
    rw [natCmpL_cons_cons, if_pos hdig, if_pos hgt2] at h
    cases h
  | case4 c s1 d t1 cs ct hdig is it hngt hlt ih =>
    have hngt2 : ¬ digitsVal (nextChunk (c :: s1)) > digitsVal (nextChunk (d :: t1)) := hngt
    have hlt2 : digitsVal (nextChunk (c :: s1)) < digitsVal (nextChunk (d :: t1)) := hlt
    rw [natCmpL_cons_cons, if_pos hdig, if_neg hngt2, if_pos hlt2] at h
    cases h
  | case5 c s1 d t1 cs ct hdig is it hngt hnlt ih =>
    have hngt2 : ¬ digitsVal (nextChunk (c :: s1)) > digitsVal (nextChunk (d :: t1)) := hngt
    have hnlt2 : ¬ digitsVal (nextChunk (c :: s1)) < digitsVal (nextChunk (d :: t1)) := hnlt
    rw [natCmpL_cons_cons, if_pos hdig, if_neg hngt2, if_neg hnlt2] at h
    by_cases hsc : strCmp (nextChunk (c :: s1)) (nextChunk (d :: t1)) = 0
    · rw [if_neg (by simpa using hsc)] at h
      have he := strCmp_eq_zero _ _ hsc
      have h2 : List.drop (nextChunk (c :: s1)).length (c :: s1) =
          List.drop (nextChunk (d :: t1)).length (d :: t1) := ih h
      rw [← nextChunk_prefix (c :: s1), ← nextChunk_prefix (d :: t1), h2, he]
    · rw [if_pos (by simpa using hsc)] at h
      exact absurd h hsc
  | case6 c s1 d t1 cs ct hdig ih =>
    rw [natCmpL_cons_cons, if_neg hdig] at h
    by_cases hsc : strCmp (nextChunk (c :: s1)) (nextChunk (d :: t1)) = 0
    · rw [if_neg (by simpa using hsc)] at h
      have he := strCmp_eq_zero _ _ hsc
      have h2 : List.drop (nextChunk (c :: s1)).length (c :: s1) =
          List.drop (nextChunk (d :: t1)).length (d :: t1) := ih h
      rw [← nextChunk_prefix (c :: s1), ← nextChunk_prefix (d :: t1), h2, he]
    · rw [if_pos (by simpa using hsc)] at h
      exact absurd h hsc

/-- String-level antisymmetry of `natCompare`. -/
theorem natCompare_neg (s t : String) : natCompare t s = -natCompare s t :=
  natCmpL_neg s.data t.data

/-- String-level separation: `natCompare s t = 0` forces `s = t`. -/
theorem natCompare_eq_zero (s t : String) (h : natCompare s t = 0) : s = t := by
  cases s with
  | mk sd =>
    cases t with
    | mk td =>
      exact congrArg String.mk (natCmpL_eq_zero sd td h)

/-- One-step unfolding of `natCmpF` on two non-empty strings. -/
theorem natCmpF_cons_cons (fuel : Nat) (c : Char) (s1 : List Char) (d : Char)
    (t1 : List Char) :
    natCmpF (fuel+1) (c :: s1) (d :: t1) =
      (if isASCIIDigit c && isASCIIDigit d then
        if digitsVal (nextChunk (c :: s1)) > digitsVal (nextChunk (d :: t1)) then 1
        else if digitsVal (nextChunk (c :: s1)) < digitsVal (nextChunk (d :: t1)) then -1
        else
          if strCmp (nextChunk (c :: s1)) (nextChunk (d :: t1)) ≠ 0 then
            strCmp (nextChunk (c :: s1)) (nextChunk (d :: t1))
          else natCmpF fuel ((c :: s1).drop (nextChunk (c :: s1)).length)
            ((d :: t1).drop (nextChunk (d :: t1)).length)
      else
        if strCmp (nextChunk (c :: s1)) (nextChunk (d :: t1)) ≠ 0 then
          strCmp (nextChunk (c :: s1)) (nextChunk (d :: t1))
        else natCmpF fuel ((c :: s1).drop (nextChunk (c :: s1)).length)
          ((d :: t1).drop (nextChunk (d :: t1)).length)) := rfl

/-- With sufficient fuel, the structural twin computes `natCmpL`. -/
theorem natCmpF_eq :
    ∀ (fuel : Nat) (s t : List Char), s.length + t.length ≤ fuel →
      natCmpF fuel s t = natCmpL s t := by
  intro fuel
  induction fuel with
  | zero =>
    intro s t hle
    cases s with
    | nil =>
      cases t with
      | nil => rw [natCmpL]; rfl
      | cons d t1 => simp only [List.length_nil, List.length_cons] at hle; omega
    | cons c s1 => simp only [List.length_cons] at hle; omega
  | succ f ihf =>
    intro s t hle
    cases s with
    | nil => rw [natCmpL]; rfl
    | cons c s1 =>
      cases t with
      | nil => rw [natCmpL]; rfl
      | cons d t1 =>
        rw [natCmpF_cons_cons, natCmpL_cons_cons]
        have hrec : natCmpF f (List.drop (nextChunk (c :: s1)).length (c :: s1))
            (List.drop (nextChunk (d :: t1)).length (d :: t1)) =
            natCmpL (List.drop (nextChunk (c :: s1)).length (c :: s1))
              (List.drop (nextChunk (d :: t1)).length (d :: t1)) := by
          apply ihf
          simp only [List.length_drop, List.length_cons]
          have h1 : 1 ≤ (nextChunk (c :: s1)).length := by
            simp only [nextChunk, List.length_cons]
            omega
          have h2 : 1 ≤ (nextChunk (d :: t1)).length := by
            simp only [nextChunk, List.length_cons]
            omega
          simp only [List.length_cons] at hle
          omega
        rw [hrec]

/-- With sufficient fuel, the structural twin computes `toChunks`. -/
theorem toChunksF_eq :
    ∀ (fuel : Nat) (s : List Char), s.length ≤ fuel →
      toChunksF fuel s = toChunks s := by
  intro fuel
  induction fuel with
  | zero =>
    intro s hle
    cases s with
    | nil => rw [toChunks]; rfl
    | cons c s1 => simp only [List.length_cons] at hle; omega
  | succ f ihf =>
    intro s hle
    cases s with
    | nil => rw [toChunks]; rfl
    | cons c s1 =>
      rw [toChunks]
      show nextChunk (c :: s1) ::
          toChunksF f ((c :: s1).drop (nextChunk (c :: s1)).length) = _
      congr 1
      apply ihf
      simp only [List.length_drop, List.length_cons]
      have h1 : 1 ≤ (nextChunk (c :: s1)).length := by
        simp only [nextChunk, List.length_cons]
        omega
      simp only [List.length_cons] at hle
      omega

/-- Evaluation form of `natCompare`. -/
theorem natCompare_eval (s t : String) :
    natCompare s t = natCmpF (s.data.length + t.data.length) s.data t.data :=
  (natCmpF_eq (s.data.length + t.data.length) s.data t.data le_rfl).symm

/-- Evaluation form of `toChunks`. -/
theorem toChunks_eval (s : List Char) : toChunks s = toChunksF s.length s :=
  (toChunksF_eq s.length s le_rfl).symm

/-- The natural-sort comparator closure equals its executable twin. -/
theorem natLess_funext : natLess = natLessF := by
  funext a b
  unfold natLess natLessF
  rw [natCompare_eval]

/-- The interface comparator equals its executable twin. -/
theorem ifaceLess_funext : ifaceLess = ifaceLessF := by
  funext di dj
  unfold ifaceLess ifaceLessF
  rw [natCompare_eval]

/-- `buildInventory` with the comparator replaced by its executable
twin, for concrete evaluation. -/
theorem buildInventory_eval (cfg : RunnerCfg) (tds : List TopoDev)
    (links : List TopoLink) :
    buildInventory cfg tds links =
      (runLinks cfg tds links).devs.map
        (fun d => { d with interfaces := goSortSlice ifaceLessF d.interfaces }) := by
  unfold buildInventory
  rw [ifaceLess_funext]

/-- Evaluation form of `alphanumSpecCmp`. -/
theorem alphanumSpecCmp_eval (s t : String) :
    alphanumSpecCmp s t =
      lexChunks chunkCmpSpec (toChunksF s.data.length s.data)
        (toChunksF t.data.length t.data) := by
  unfold alphanumSpecCmp
  rw [toChunks_eval, toChunks_eval]

/-- Evaluation form of `alphanumAmendedCmp`. -/
theorem alphanumAmendedCmp_eval (s t : String) :
    alphanumAmendedCmp s t =
      lexChunks chunkCmpAmended (toChunksF s.data.length s.data)
        (toChunksF t.data.length t.data) := by
  unfold alphanumAmendedCmp
  rw [toChunks_eval, toChunks_eval]

/-- Evaluation form of `chunksFitInt`. -/
theorem chunksFitInt_eval (s : String) :
    chunksFitInt s ↔
      ∀ c ∈ toChunksF s.data.length s.data, digitsVal c < 2 ^ 63 := by
  unfold chunksFitInt
  rw [toChunks_eval]

/-- The head of a chunk peeled from `c :: s1` is `c`. -/
theorem nextChunk_headD (c : Char) (s1 : List Char) :
    (nextChunk (c :: s1)).headD ' ' = c := rfl

/-- `natCmpL` realizes the chunkwise lexicographic Alphanum comparison
with the amended (byte-order) digit-tie rule, up to `Int.sign`: the
source returns length differences at exhaustion where the contract
returns ±1. -/
theorem natCmpL_sign_lexChunks (s t : List Char) :
    Int.sign (natCmpL s t) =
      lexChunks chunkCmpAmended (toChunks s) (toChunks t) := by
  induction s, t using natCmpL.induct with
  | case1 t =>
    cases t with
    | nil =>
      rw [natCmpL, toChunks]
      decide
    | cons d t1 =>
      rw [natCmpL, toChunks, toChunks, zero_sub, Int.sign_neg,
        Int.sign_natCast_of_ne_zero (by simp)]
      rfl
  | case2 c s1 =>
    rw [natCmpL, toChunks, toChunks, Int.sign_natCast_of_ne_zero (by simp)]
    rfl
  | case3 c s1 d t1 cs ct hdig is it hgt ih =>
    have hgt2 : digitsVal (nextChunk (c :: s1)) > digitsVal (nextChunk (d :: t1)) := hgt
    have hcc : chunkCmpAmended (nextChunk (c :: s1)) (nextChunk (d :: t1)) = 1 := by
      unfold chunkCmpAmended
      rw [nextChunk_headD, nextChunk_headD, if_pos hdig, if_pos hgt2]
    rw [natCmpL_cons_cons, if_pos hdig, if_pos hgt2, toChunks, toChunks,
      lexChunks, hcc, if_pos (by decide : (1 : Int) ≠ 0)]
    rfl
  | case4 c s1 d t1 cs ct hdig is it hngt hlt ih =>
    have hngt2 : ¬ digitsVal (nextChunk (c :: s1)) > digitsVal (nextChunk (d :: t1)) := hngt
    have hlt2 : digitsVal (nextChunk (c :: s1)) < digitsVal (nextChunk (d :: t1)) := hlt
    have hcc : chunkCmpAmended (nextChunk (c :: s1)) (nextChunk (d :: t1)) = -1 := by
      unfold chunkCmpAmended
      rw [nextChunk_headD, nextChunk_headD, if_pos hdig, if_neg hngt2, if_pos hlt2]
    rw [natCmpL_cons_cons, if_pos hdig, if_neg hngt2, if_pos hlt2, toChunks,
      toChunks, lexChunks, hcc, if_pos (by decide : (-1 : Int) ≠ 0)]
    rfl
  | case5 c s1 d t1 cs ct hdig is it hngt hnlt ih =>
    have hngt2 : ¬ digitsVal (nextChunk (c :: s1)) > digitsVal (nextChunk (d :: t1)) := hngt
    have hnlt2 : ¬ digitsVal (nextChunk (c :: s1)) < digitsVal (nextChunk (d :: t1)) := hnlt
    have ihe : Int.sign (natCmpL (List.drop (nextChunk (c :: s1)).length (c :: s1))
        (List.drop (nextChunk (d :: t1)).length (d :: t1))) =
        lexChunks chunkCmpAmended
          (toChunks (List.drop (nextChunk (c :: s1)).length (c :: s1)))
          (toChunks (List.drop (nextChunk (d :: t1)).length (d :: t1))) := ih
    have hcc : chunkCmpAmended (nextChunk (c :: s1)) (nextChunk (d :: t1)) =
        strCmp (nextChunk (c :: s1)) (nextChunk (d :: t1)) := by
      unfold chunkCmpAmended
      rw [nextChunk_headD, nextChunk_headD, if_pos hdig, if_neg hngt2, if_neg hnlt2]
    rw [natCmpL_cons_cons, if_pos hdig, if_neg hngt2, if_neg hnlt2, toChunks,
      toChunks, lexChunks, hcc]
    by_cases hsc : strCmp (nextChunk (c :: s1)) (nextChunk (d :: t1)) = 0
    · rw [if_neg (by simpa using hsc), if_neg (by simpa using hsc)]
      exact ihe
    · rw [if_pos (by simpa using hsc), if_pos (by simpa using hsc)]
      rcases strCmp_cases (nextChunk (c :: s1)) (nextChunk (d :: t1)) with h | h | h
      · rw [h]; rfl
      · exact absurd h hsc
      · rw [h]; rfl
  | case6 c s1 d t1 cs ct hdig ih =>
    have ihe : Int.sign (natCmpL (List.drop (nextChunk (c :: s1)).length (c :: s1))
        (List.drop (nextChunk (d :: t1)).length (d :: t1))) =
        lexChunks chunkCmpAmended
          (toChunks (List.drop (nextChunk (c :: s1)).length (c :: s1)))
          (toChunks (List.drop (nextChunk (d :: t1)).length (d :: t1))) := ih
    have hcc : chunkCmpAmended (nextChunk (c :: s1)) (nextChunk (d :: t1)) =
        strCmp (nextChunk (c :: s1)) (nextChunk (d :: t1)) := by
      unfold chunkCmpAmended
      rw [nextChunk_headD, nextChunk_headD, if_neg hdig]
    rw [natCmpL_cons_cons, if_neg hdig, toChunks, toChunks, lexChunks, hcc]
    by_cases hsc : strCmp (nextChunk (c :: s1)) (nextChunk (d :: t1)) = 0
    · rw [if_neg (by simpa using hsc), if_neg (by simpa using hsc)]
      exact ihe
    · rw [if_pos (by simpa using hsc), if_pos (by simpa using hsc)]
      rcases strCmp_cases (nextChunk (c :: s1)) (nextChunk (d :: t1)) with h | h | h
      · rw [h]; rfl
      · exact absurd h hsc
      · rw [h]; rfl

/-! ### Insertion-sort lemmas for `goSortSlice` -/

/-- `sinkIns` inserts: the result is a permutation of `x :: l`. -/
theorem sinkIns_perm {α : Type} (less : α → α → Bool) (x : α) (l : List α) :
    List.Perm (sinkIns less x l) (x :: l) := by
  induction l with
  | nil => simp [sinkIns]
  | cons y r ih =>
    by_cases h : less x y = true
    · rw [sinkIns, if_pos h]
      exact (List.Perm.cons y ih).trans (List.Perm.swap x y r)
    · rw [sinkIns, if_neg h]

/-- Folding `sinkIns` yields a permutation of input plus accumulator. -/
theorem foldl_sinkIns_perm {α : Type} (less : α → α → Bool) :
    ∀ (l acc : List α),
      List.Perm (l.foldl (fun a x => sinkIns less x a) acc) (l ++ acc) := by
  intro l
  induction l with
  | nil => intro acc; simp
  | cons x r ih =>
    intro acc
    simp only [List.foldl_cons, List.cons_append]
    exact ((ih (sinkIns less x acc)).trans
      ((sinkIns_perm less x acc).append_left r)).trans List.perm_middle

/-- `goSortSlice` permutes its input. -/
theorem goSortSlice_perm {α : Type} (less : α → α → Bool) (l : List α) :
    List.Perm (goSortSlice less l) l := by
  unfold goSortSlice
  exact (List.reverse_perm _).trans (by simpa using foldl_sinkIns_perm less l [])

/-- `sinkIns` preserves the reversed-prefix chain (no element is `less`
than its successor) when the inserted element never compares both ways
against a prefix element. -/
theorem sinkIns_chain {α : Type} (less : α → α → Bool) (x : α) :
    ∀ (l : List α),
      (∀ a ∈ l, ¬(less x a = true ∧ less a x = true)) →
      List.Chain' (fun a b => less a b = false) l →
      List.Chain' (fun a b => less a b = false) (sinkIns less x l) := by
  intro l
  induction l with
  | nil => intro _ _; simp [sinkIns]
  | cons y r ih =>
    intro hasym hch
    by_cases hxy : less x y = true
    · rw [sinkIns, if_pos hxy]
      rw [List.chain'_cons']
      constructor
      · intro b hb
        cases r with
        | nil =>
          simp [sinkIns] at hb
          subst hb
          have h3 := hasym y (by simp)
          cases h2 : less y x
          · rfl
          · exact absurd ⟨hxy, h2⟩ h3
        | cons z r2 =>
          rw [sinkIns] at hb
          by_cases hxz : less x z = true
          · rw [if_pos hxz] at hb
            simp at hb
            subst hb
            exact (List.chain'_cons.mp hch).1
          · rw [if_neg hxz] at hb
            simp at hb
            subst hb
            have h3 := hasym y (by simp)
            cases h2 : less y x
            · rfl
            · exact absurd ⟨hxy, h2⟩ h3
      · exact ih (fun a ha => hasym a (by simp [ha])) hch.tail
    · rw [sinkIns, if_neg hxy]
      refine List.chain'_cons.mpr ⟨?_, hch⟩
      cases h2 : less x y
      · rfl
      · exact absurd h2 hxy

/-- The whole fold keeps the reversed chain, given mutual exclusion of
the comparator on a superset `S` of everything involved. -/
theorem foldl_sinkIns_chain {α : Type} (less : α → α → Bool) (S : List α)
    (hasym : ∀ a ∈ S, ∀ b ∈ S, ¬(less a b = true ∧ less b a = true)) :
    ∀ (l acc : List α), (∀ a ∈ l, a ∈ S) → (∀ b ∈ acc, b ∈ S) →
      List.Chain' (fun a b => less a b = false) acc →
      List.Chain' (fun a b => less a b = false)
        (l.foldl (fun a x => sinkIns less x a) acc) := by
  intro l
  induction l with
  | nil => intro acc _ _ hch; simpa using hch
  | cons x r ih =>
    intro acc hl hacc hch
    simp only [List.foldl_cons]
    apply ih (sinkIns less x acc) (fun a ha => hl a (by simp [ha]))
    · intro b hb
      rcases List.mem_cons.mp ((sinkIns_perm less x acc).mem_iff.mp hb) with h | h
      · exact h ▸ hl x (by simp)
      · exact hacc b h
    · exact sinkIns_chain less x acc
        (fun a ha => hasym x (hl x (by simp)) a (hacc a ha)) hch

/-- No adjacent pair of the sorted output compares backwards. -/
theorem goSortSlice_chain {α : Type} (less : α → α → Bool) (l : List α)
    (hasym : ∀ a ∈ l, ∀ b ∈ l, ¬(less a b = true ∧ less b a = true)) :
    List.Chain' (fun a b => less b a = false) (goSortSlice less l) := by
  unfold goSortSlice
  rw [List.chain'_reverse]
  exact foldl_sinkIns_chain less l hasym l [] (fun a ha => ha)
    (fun b hb => absurd hb (List.not_mem_nil b)) List.chain'_nil

/-! ### The interface-name comparator -/

/-- `ifaceLess` reads only the two interface names. -/
theorem ifaceLess_eq_nameLess (di dj : Iface) :
    ifaceLess di dj = nameLess di.name dj.name := rfl

/-- `sinkIns` commutes with projecting interfaces to their names. -/
theorem map_name_sinkIns (x : Iface) :
    ∀ (l : List Iface),
      (sinkIns ifaceLess x l).map Iface.name =
        sinkIns nameLess x.name (l.map Iface.name) := by
  intro l
  induction l with
  | nil => rfl
  | cons y r ih =>
    show (if ifaceLess x y then y :: sinkIns ifaceLess x r else x :: y :: r).map
          Iface.name =
        if nameLess x.name y.name then
          y.name :: sinkIns nameLess x.name (r.map Iface.name)
        else x.name :: y.name :: r.map Iface.name
    rw [← ifaceLess_eq_nameLess]
    by_cases h : ifaceLess x y = true
    · rw [if_pos h, if_pos h, List.map_cons, ih]
    · rw [if_neg h, if_neg h]
      rfl

/-- The fold underlying `goSortSlice` commutes with the name projection. -/
theorem map_name_foldl_sinkIns :
    ∀ (l acc : List Iface),
      (l.foldl (fun a x => sinkIns ifaceLess x a) acc).map Iface.name =
        (l.map Iface.name).foldl (fun a x => sinkIns nameLess x a)
          (acc.map Iface.name) := by
  intro l
  induction l with
  | nil => intro acc; rfl
  | cons x r ih =>
    intro acc
    simp only [List.foldl_cons, List.map_cons]
    rw [ih, map_name_sinkIns]

/-- Sorting interfaces with `ifaceLess` sorts their names with
`nameLess`. -/
theorem map_name_goSortSlice (l : List Iface) :
    (goSortSlice ifaceLess l).map Iface.name =
      goSortSlice nameLess (l.map Iface.name) := by
  unfold goSortSlice
  rw [List.map_reverse, map_name_foldl_sinkIns]
  rfl

/-- `nameLess` never holds in both directions between two names that
each either are `eth0` or Alphanum-compare above it. -/
theorem nameLess_asym (x y : String)
    (hx : x ≠ "eth0" → natCompare "eth0" x < 0)
    (hy : y ≠ "eth0" → natCompare "eth0" y < 0) :
    ¬(nameLess x y = true ∧ nameLess y x = true) := by
  rintro ⟨h1, h2⟩
  simp only [nameLess, Bool.or_eq_true, Bool.and_eq_true,
    decide_eq_true_eq] at h1 h2
  rcases h1 with ⟨hxe, hyne⟩ | h1r
  · rcases h2 with ⟨hye, _⟩ | h2r
    · exact hyne hye
    · have hg := hy hyne
      have hn := natCompare_neg "eth0" y
      rw [hxe] at h2r
      omega
  · rcases h2 with ⟨hye, hxne⟩ | h2r
    · have hg := hx hxne
      have hn := natCompare_neg "eth0" x
      rw [hye] at h1r
      omega
    · have hn := natCompare_neg x y
      omega

/-- A backwards-false adjacent pair of distinct names is a strict
forwards pair: the weak chain upgrades to the strict one on `Nodup`
lists. -/
theorem chain_strict_of_weak :
    ∀ (ns : List String),
      List.Chain' (fun a b => nameLess b a = false) ns →
      ns.Nodup →
      List.Chain' (fun a b => nameLess a b = true) ns := by
  intro ns
  induction ns with
  | nil => intro _ _; exact List.chain'_nil
  | cons x r ih =>
    intro hch hnd
    cases r with
    | nil => simp
    | cons y r2 =>
      rw [List.chain'_cons] at hch ⊢
      refine ⟨?_, ih hch.2 hnd.of_cons⟩
      have hne : x ≠ y := fun h =>
        (List.nodup_cons.mp hnd).1 (h ▸ List.mem_cons_self y r2)
      have hw := hch.1
      by_cases hxe : x = "eth0"
      · have hyne : y ≠ "eth0" := fun hye => hne (hxe.trans hye.symm)
        simp only [nameLess, Bool.or_eq_true, Bool.and_eq_true,
          decide_eq_true_eq]
        exact Or.inl ⟨hxe, hyne⟩
      · have hwn : ¬ natCompare y x < 0 := by
          intro hl
          have ht : nameLess y x = true := by
            simp only [nameLess, Bool.or_eq_true, Bool.and_eq_true,
              decide_eq_true_eq]
            exact Or.inr hl
          rw [hw] at ht
          cases ht
        have hlt : natCompare x y < 0 := by
          have hn := natCompare_neg x y
          have hz : natCompare y x ≠ 0 := fun h0 =>
            hne (natCompare_eq_zero y x h0).symm
          omega
        simp only [nameLess, Bool.or_eq_true, Bool.and_eq_true,
          decide_eq_true_eq]
        exact Or.inr hlt

/-- In a strictly `nameLess`-increasing list whose non-`eth0` names all
Alphanum-compare above `eth0`, the name `eth0` never sits past the
head. -/
theorem eth0_not_in_tail :
    ∀ (ns : List String),
      List.Chain' (fun a b => nameLess a b = true) ns →
      ns.Nodup →
      (∀ n ∈ ns, n ≠ "eth0" → natCompare "eth0" n < 0) →
      "eth0" ∉ ns.tail := by
  intro ns
  induction ns with
  | nil => intro _ _ _; simp
  | cons x r ih =>
    intro hch hnd hgt
    cases r with
    | nil => simp
    | cons y r2 =>
      show "eth0" ∉ y :: r2
      intro hmem
      rcases List.mem_cons.mp hmem with h | h
      · have hxy := (List.chain'_cons.mp hch).1
        have hxne : x ≠ "eth0" := by
          intro hxe
          exact (List.nodup_cons.mp hnd).1
            (hxe.trans h ▸ List.mem_cons_self y r2)
        simp only [nameLess, Bool.or_eq_true, Bool.and_eq_true,
          decide_eq_true_eq] at hxy
        rcases hxy with ⟨hxe, _⟩ | hlt
        · exact hxne hxe
        · rw [← h] at hlt
          have hg := hgt x (List.mem_cons_self x (y :: r2)) hxne
          have hn := natCompare_neg "eth0" x
          omega
      · exact ih (List.chain'_cons.mp hch).2 hnd.of_cons
          (fun n hn => hgt n (List.mem_cons_of_mem x hn)) h

/-- Adjacent strict `nameLess` pairs whose members are never `eth0`
yield the Boolean `natChainB` chain. -/
theorem natChainB_of_chain :
    ∀ (ns : List String),
      List.Chain' (fun a b => nameLess a b = true) ns →
      "eth0" ∉ ns →
      natChainB ns = true := by
  intro ns
  induction ns with
  | nil => intro _ _; rfl
  | cons x r ih =>
    intro hch hmem
    cases r with
    | nil => rfl
    | cons y r2 =>
      have h1 := (List.chain'_cons.mp hch).1
      have hxne : x ≠ "eth0" := fun h => hmem (h ▸ List.mem_cons_self x (y :: r2))
      simp only [nameLess, Bool.or_eq_true, Bool.and_eq_true,
        decide_eq_true_eq] at h1
      rcases h1 with ⟨hxe, _⟩ | hlt
      · exact absurd hxe hxne
      · show (decide (natCompare x y < 0) && natChainB (y :: r2)) = true
        rw [Bool.and_eq_true]
        exact ⟨decide_eq_true hlt,
          ih (List.chain'_cons.mp hch).2
            (fun h => hmem (List.mem_cons_of_mem x h))⟩

/-- Assembled: a strictly `nameLess`-sorted `Nodup` name list whose
non-`eth0` members Alphanum-compare above `eth0` satisfies the claimed
interface-ordering property. -/
theorem eth0FirstNatSorted_of_chain (ns : List String)
    (hch : List.Chain' (fun a b => nameLess a b = true) ns)
    (hnd : ns.Nodup)
    (hgt : ∀ n ∈ ns, n ≠ "eth0" → natCompare "eth0" n < 0) :
    eth0FirstNatSorted ns = true := by
  unfold eth0FirstNatSorted
  by_cases hmem : "eth0" ∈ ns
  · rw [if_pos (by simpa using hmem)]
    cases ns with
    | nil => cases hmem
    | cons x r =>
      have hnt : "eth0" ∉ r := eth0_not_in_tail (x :: r) hch hnd hgt
      have hx : x = "eth0" := by
        rcases List.mem_cons.mp hmem with h | h
        · exact h.symm
        · exact absurd h hnt
      rw [Bool.and_eq_true]
      constructor
      · rw [hx]
        rfl
      · exact natChainB_of_chain r hch.tail hnt
  · rw [if_neg (by simpa using hmem)]
    exact natChainB_of_chain ns hch hmem

/-- **C6 (amended).** Interface ordering after inventory building, under
the hypothesis the comparator needs to be an order: for every device of
the built inventory whose interface names are pairwise distinct *and*
all Alphanum-compare above `eth0` (when different from it), the sorted
interface sequence has `eth0` (if present) at position 0 and the
remaining names strictly increasing under `natCompare`. Without the
extra hypothesis the claim fails: a name below `eth0` makes `ifaceLess`
hold in both directions, and Go's insertion sort then displaces `eth0`
(see the counterexample). -/
theorem interface_order_amended (cfg : RunnerCfg) (tds : List TopoDev)
    (links : List TopoLink) (d : Dev)
    (hd : d ∈ buildInventory cfg tds links)
    (hnd : (ifaceNamesOf d).Nodup)
    (hgt : ∀ n ∈ ifaceNamesOf d, n ≠ "eth0" → natCompare "eth0" n < 0) :
    eth0FirstNatSorted (ifaceNamesOf d) = true := by
  unfold buildInventory at hd
  rcases List.mem_map.mp hd with ⟨d0, _, rfl⟩
  have hnames : ifaceNamesOf
      { d0 with interfaces := goSortSlice ifaceLess d0.interfaces } =
      goSortSlice nameLess (d0.interfaces.map Iface.name) :=
    map_name_goSortSlice d0.interfaces
  rw [hnames] at hnd hgt ⊢
  have hperm := goSortSlice_perm nameLess (d0.interfaces.map Iface.name)
  have hgt0 : ∀ n ∈ d0.interfaces.map Iface.name, n ≠ "eth0" →
      natCompare "eth0" n < 0 :=
    fun n hn => hgt n (hperm.mem_iff.mpr hn)
  have hasym : ∀ a ∈ d0.interfaces.map Iface.name,
      ∀ b ∈ d0.interfaces.map Iface.name,
      ¬(nameLess a b = true ∧ nameLess b a = true) :=
    fun a ha b hb => nameLess_asym a b (hgt0 a ha) (hgt0 b hb)
  have hweak := goSortSlice_chain nameLess (d0.interfaces.map Iface.name) hasym
  exact eth0FirstNatSorted_of_chain _ (chain_strict_of_weak _ hweak hnd) hnd hgt

/-- **C6 (counterexample).** The unamended claim is false: in the
two-link topology `cexLinks` the device `h1` has the pairwise-distinct
interface names `eth0` and `ab`, yet after inventory building `eth0`
sits at position 1, not 0 — `natCompare "ab" "eth0" < 0` makes
`ifaceLess` hold in both directions, and the insertion sort behind
`sort.Slice` lets `ab` sink past `eth0`. -/
theorem interface_order_eth0_displaced :
    ((findDev (buildInventory defaultCfg [tdH1, tdH2] cexLinks) "h1").map
        ifaceNamesOf) = some ["ab", "eth0"]
    ∧ (["ab", "eth0"] : List String).Nodup
    ∧ eth0FirstNatSorted ["ab", "eth0"] = false := by
  refine ⟨?_, by decide, by decide⟩
  rw [buildInventory_eval]
  decide

/-- Witness for `interface_order_amended`: the topology `wLinks` gives
`h1` the interface names `eth0` and `swp1`; all hypotheses hold
concretely and the ordering property follows. -/
theorem interface_order_amended_witness :
    wDev ∈ buildInventory defaultCfg [tdH1, tdH2] wLinks
    ∧ (ifaceNamesOf wDev).Nodup
    ∧ eth0FirstNatSorted (ifaceNamesOf wDev) = true :=
  ⟨by rw [buildInventory_eval]; decide, by decide,
    interface_order_amended defaultCfg [tdH1, tdH2] wLinks wDev
      (by rw [buildInventory_eval]; decide) (by decide)
      (by simp only [natCompare_eval]; decide)⟩

/-- **C7 (amended).** `natCompare` realizes the Alphanum contract with
one amendment: corresponding chunks are compared pairwise (digit-vs-digit
chunks as unsigned integers, every other pair by byte order, the first
exhausted side smaller), *except* that two digit chunks of equal integer
value are further tie-broken by byte order instead of being equal
(`"01"` sorts before `"1"`, see the counterexample). Up to `Int.sign`
(the source returns remaining-length differences at exhaustion) the
comparison equals the amended chunkwise contract on every pair of
strings whose digit chunks fit Go's 64-bit `int`; and it sorts both
Koelle fixtures into their golden order. -/
theorem natCompare_alphanum_amended :
    (∀ s t : String, chunksFitInt s → chunksFitInt t →
        Int.sign (natCompare s t) = alphanumAmendedCmp s t)
    ∧ goSortSlice natLess koelleInput1 = koelleGolden1
    ∧ goSortSlice natLess koelleInput2 = koelleGolden2 := by
  refine ⟨fun s t _ _ => natCmpL_sign_lexChunks s.data t.data, ?_, ?_⟩
  · rw [natLess_funext]
    decide
  · rw [natLess_funext]
    decide

/-- **C7 (counterexample).** The unamended contract misdescribes digit
ties: on `"01"` and `"1"` the contract compares the single digit chunks
as equal integers (result 0), but `natCompare` falls through to
`strings.Compare` and returns -1. -/
theorem natCompare_digit_tie_breaks_spec :
    natCompare "01" "1" = -1 ∧ alphanumSpecCmp "01" "1" = 0 := by
  constructor
  · rw [natCompare_eval]
    decide
  · rw [alphanumSpecCmp_eval]
    decide

/-- Witness for `natCompare_alphanum_amended`: its universally
quantified clause applied to `"z2.doc"` and `"z10.doc"`, whose digit
chunks concretely fit a 64-bit `int`. -/
theorem natCompare_alphanum_amended_witness :
    chunksFitInt "z2.doc" ∧ chunksFitInt "z10.doc" ∧
      Int.sign (natCompare "z2.doc" "z10.doc") =
        alphanumAmendedCmp "z2.doc" "z10.doc" :=
  ⟨by rw [chunksFitInt_eval]; decide, by rw [chunksFitInt_eval]; decide,
    natCompare_alphanum_amended.1 "z2.doc" "z10.doc"
      (by rw [chunksFitInt_eval]; decide) (by rw [chunksFitInt_eval]; decide)⟩

end Runtopo
